import Mathlib

/-!
Verification of the llmkit request pipeline (src/llmkit of the repository)
against its design document.

The development shallowly embeds the Python modules `coerce.py`,
`input_spec.py`, `registry.py`, `prompt_layers.py`, `client.py` and
`adapters/gemini.py`.  JSON-like Python values are modelled by the
inductive type `JVal`; fallible Python code (code that can raise) is
modelled with `Except String`; `json.loads` is modelled by an executable
fueled recursive-descent parser over `List Char` that follows the JSON
grammar accepted by Python's `json` module.

Modelling notes, stated once here:
* JSON numbers are carried by their source lexeme (`JVal.num "1"`).
  Integer values are exact under this model; float lexemes are kept
  verbatim instead of being converted to IEEE doubles (the claims under
  verification never compare numerically equal floats with distinct
  lexemes, and Python's own parser works on the same lexeme).
* Environment variables read by the code (`LLMKIT_RAG_MAX_CHARS`) and
  the loaded allowlist policy document are passed as explicit
  parameters, since the embedding has no process environment or
  filesystem.  `load_allowlist` returns `{}` on a missing or unreadable
  file, so those cases are represented by passing the empty object.
* `str.lower`/`Char.toLower` agree on ASCII, which covers every string
  the claims exercise.
-/

/-- Python/JSON values as produced by `json.loads` and manipulated by the
pipeline: `none` is Python `None` (JSON `null`); numbers are kept as
their source lexeme. -/
inductive JVal where
  | null : JVal
  | bool : Bool → JVal
  | num : String → JVal
  | str : String → JVal
  | arr : List JVal → JVal
  | obj : List (String × JVal) → JVal

/-- Python truthiness (`bool(x)`) for the modelled values.  A number is
falsy exactly when all of its mantissa digits are `0` (`0`, `-0.0`,
`0e5`, ...). -/
def numLexIsZero (lex : String) : Bool :=
  (lex.data.takeWhile (fun c => c ≠ 'e' ∧ c ≠ 'E')).all
    (fun c => ¬ c.isDigit ∨ c = '0')

/-- Python truthiness of a `JVal`. -/
def pyTruthy : JVal → Bool
  | .null => false
  | .bool b => b
  | .num lex => ¬ numLexIsZero lex
  | .str s => !(s == "")
  | .arr xs => !xs.isEmpty
  | .obj kvs => !kvs.isEmpty

/-- Python `x or y`: `x` when truthy, else `y`. -/
def pyOr (x y : JVal) : JVal := if pyTruthy x then x else y

/-- Characters stripped by Python's `str.strip()` (the ASCII whitespace
subset, which covers all inputs exercised here). -/
def pyIsSpace (c : Char) : Bool :=
  c = ' ' ∨ c = '\t' ∨ c = '\n' ∨ c = '\r' ∨ c = '\x0b' ∨ c = '\x0c'

/-- Python `str.strip()` on a character list. -/
def pyStripChars (cs : List Char) : List Char :=
  ((cs.dropWhile pyIsSpace).reverse.dropWhile pyIsSpace).reverse

/-- Python `str.strip()`. -/
def pyStrip (s : String) : String := ⟨pyStripChars s.data⟩

/-- Python `str.lower()` (ASCII case folding). -/
def pyLower (s : String) : String := ⟨s.data.map Char.toLower⟩

/-- Association-list lookup modelling Python `dict` key lookup. -/
def dictLookup (k : String) : List (String × JVal) → Option JVal
  | [] => Option.none
  | (k', v) :: rest => if k' = k then some v else dictLookup k rest

/-- Python `d.get(k, default)` on a value known to be a dict. -/
def dictGetD (kvs : List (String × JVal)) (k : String) (d : JVal) : JVal :=
  (dictLookup k kvs).getD d

/-- Python `x.get(k, default)` on an arbitrary value: raises
`AttributeError` unless `x` is a dict. -/
def pyGetD (x : JVal) (k : String) (d : JVal) : Except String JVal :=
  match x with
  | .obj kvs => .ok (dictGetD kvs k d)
  | _ => .error "AttributeError: object has no attribute get"

/-- Python `x.get(k)` (default `None`). -/
def pyGet (x : JVal) (k : String) : Except String JVal := pyGetD x k .null

/-- Python `x[0]`: first element of a list, first character of a string
(as a one-character string); raises `IndexError` on an empty sequence and
`TypeError` on a non-indexable value. -/
def pyIndex0 : JVal → Except String JVal
  | .arr (x :: _) => .ok x
  | .arr [] => .error "IndexError: list index out of range"
  | .str s =>
    match s.data with
    | c :: _ => .ok (.str ⟨[c]⟩)
    | [] => .error "IndexError: string index out of range"
  | _ => .error "TypeError: object is not subscriptable"

/-- Python iteration over a value as used by `set(...)`: a list yields
its elements, a string its characters (as one-character strings), a dict
its keys; anything else raises `TypeError`. -/
def pyIterElems : JVal → Except String (List JVal)
  | .arr xs => .ok xs
  | .str s => .ok (s.data.map fun c => .str ⟨[c]⟩)
  | .obj kvs => .ok (kvs.map fun kv => .str kv.1)
  | _ => .error "TypeError: object is not iterable"

/-- Membership of a Python string in an iterated collection under
Python `==` (a `str` compares equal only to an equal `str`). -/
def strMem (s : String) (l : List JVal) : Bool :=
  l.any fun j => match j with | .str t => t = s | _ => false

/-- Python `int(s)` on a string, used for the lenient numeric
environment-variable parse: optional surrounding whitespace, optional
sign, one or more decimal digits; anything else fails. -/
def pyIntParse (s : String) : Option Int :=
  let cs := pyStripChars s.data
  let (neg, ds) :=
    match cs with
    | '-' :: t => (true, t)
    | '+' :: t => (false, t)
    | t => (false, t)
  if ds ≠ [] ∧ ds.all Char.isDigit then
    let n : Nat := ds.foldl (fun acc c => acc * 10 + (c.toNat - '0'.toNat)) 0
    some (if neg then -(n : Int) else (n : Int))
  else
    Option.none

/-- Python `str(x)` for the modelled values.  Containers render through
a simplified `repr` (strings always single-quoted); number lexemes are
rendered verbatim, exact for integers. -/
def pyStr : JVal → String
  | .null => "None"
  | .bool true => "True"
  | .bool false => "False"
  | .num lex => lex
  | .str s => s
  | .arr xs => "[" ++ ", ".intercalate (pyReprList xs) ++ "]"
  | .obj kvs => "\x7b" ++ ", ".intercalate (pyReprPairs kvs) ++ "\x7d"
where
  /-- Simplified Python `repr` of each list element. -/
  pyReprList : List JVal → List String
    | [] => []
    | x :: xs => pyRepr x :: pyReprList xs
  /-- Simplified Python `repr` of each dict entry. -/
  pyReprPairs : List (String × JVal) → List String
    | [] => []
    | (k, v) :: xs => ("\x27" ++ k ++ "\x27: " ++ pyRepr v) :: pyReprPairs xs
  /-- Simplified Python `repr`: like `str` except strings are quoted. -/
  pyRepr : JVal → String
    | .str s => "\x27" ++ s ++ "\x27"
    | .null => "None"
    | .bool true => "True"
    | .bool false => "False"
    | .num lex => lex
    | .arr xs => "[" ++ ", ".intercalate (pyReprList xs) ++ "]"
    | .obj kvs => "\x7b" ++ ", ".intercalate (pyReprPairs kvs) ++ "\x7d"

/-! ## A model of Python `json.loads`

Executable recursive-descent parser over `List Char`.  Structure follows
the grammar accepted by Python's `json` module in its default strict
mode: double-quoted strings with the standard escapes (including
`\uXXXX` with surrogate pairing; a lone surrogate is rejected, a corner
Python tolerates but the claims never exercise), numbers per the JSON
number grammar, `true`/`false`/`null`, arrays and objects.  A duplicate
object key keeps the position of its first occurrence and the value of
its last, as Python dict insertion does.  Nesting depth is bounded by an
explicit fuel; `jsonLoads` supplies fuel `length + 1`, which the
roundtrip development shows is always sufficient. -/

/-- Whitespace skipped between JSON tokens (`json.decoder` skips exactly
space, tab, newline, carriage return). -/
def jIsWs (c : Char) : Bool := c = ' ' ∨ c = '\t' ∨ c = '\n' ∨ c = '\r'

/-- Drop leading JSON whitespace. -/
def skipWs : List Char → List Char
  | [] => []
  | c :: rest => if jIsWs c then skipWs rest else c :: rest

/-- Value of a hexadecimal digit. -/
def hexVal (c : Char) : Option Nat :=
  if '0' ≤ c ∧ c ≤ '9' then some (c.toNat - '0'.toNat)
  else if 'a' ≤ c ∧ c ≤ 'f' then some (c.toNat - 'a'.toNat + 10)
  else if 'A' ≤ c ∧ c ≤ 'F' then some (c.toNat - 'A'.toNat + 10)
  else Option.none

/-- Four hex digits to a code unit. -/
def hex4 (a b c d : Char) : Option Nat := do
  let x1 ← hexVal a
  let x2 ← hexVal b
  let x3 ← hexVal c
  let x4 ← hexVal d
  pure (((x1 * 16 + x2) * 16 + x3) * 16 + x4)

/-- Decoding of a single-character string escape (`\"`, `\\`, `\/`,
`\b`, `\f`, `\n`, `\r`, `\t`). -/
def escDecode (c : Char) : Option Char :=
  if c = '"' then some '"'
  else if c = '\\' then some '\\'
  else if c = '/' then some '/'
  else if c = 'b' then some '\x08'
  else if c = 'f' then some '\x0c'
  else if c = 'n' then some '\n'
  else if c = 'r' then some '\r'
  else if c = 't' then some '\t'
  else Option.none

/-- Prefix the decoded-character result of a string-body parse. -/
def mapCons (c : Char) : Except String (List Char × List Char) →
    Except String (List Char × List Char)
  | .ok (cs, r) => .ok (c :: cs, r)
  | .error e => .error e

/-- Combine a surrogate pair into its code point. -/
def combineSurr (n m : Nat) : Char :=
  Char.ofNat (0x10000 + (n - 0xD800) * 0x400 + (m - 0xDC00))

mutual

/-- Fueled parser for the body of a JSON string after the opening
quote; the fuel falls by one per decoded character, so input length
plus one always suffices.  Returns the decoded characters and the
input remaining after the closing quote. -/
def pStrF : Nat → List Char → Except String (List Char × List Char)
  | 0, _ => .error "Recursion limit"
  | _ + 1, [] => .error "Unterminated string"
  | f + 1, c :: rest =>
    if c = '"' then .ok ([], rest)
    else if c = '\\' then pEscF f rest
    else if c.toNat < 0x20 then .error "Invalid control character"
    else mapCons c (pStrF f rest)

/-- Fueled parser for one string escape, after the backslash. -/
def pEscF : Nat → List Char → Except String (List Char × List Char)
  | _, [] => .error "Unterminated string escape"
  | f, e :: rest =>
    if e = 'u' then
      match rest with
      | a :: b :: c :: d :: rest2 =>
        match hex4 a b c d with
        | Option.none => .error "Invalid hex escape"
        | some n =>
          if n < 0xD800 ∨ 0xE000 ≤ n then
            mapCons (Char.ofNat n) (pStrF f rest2)
          else if n < 0xDC00 then pSurrF f n rest2
          else .error "Unpaired surrogate"
      | _ => .error "Invalid hex escape"
    else
      match escDecode e with
      | some ch => mapCons ch (pStrF f rest)
      | Option.none => .error "Invalid escape"

/-- Fueled parser for the low half of a surrogate pair: a high
surrogate `n` must be followed by `\uXXXX` with a low surrogate. -/
def pSurrF : Nat → Nat → List Char → Except String (List Char × List Char)
  | f, n, s1 :: s2 :: a :: b :: c :: d :: rest =>
    if s1 = '\\' ∧ s2 = 'u' then
      match hex4 a b c d with
      | some m =>
        if 0xDC00 ≤ m ∧ m < 0xE000 then
          mapCons (combineSurr n m) (pStrF f rest)
        else .error "Unpaired surrogate"
      | Option.none => .error "Invalid hex escape"
    else .error "Unpaired surrogate"
  | _, _, _ => .error "Unpaired surrogate"

end

/-- Parse the body of a JSON string after the opening quote. -/
def pStringChars (cs : List Char) : Except String (List Char × List Char) :=
  pStrF (cs.length + 1) cs

/-- Integer part of a JSON number (with optional leading minus):
`-? (0 | [1-9][0-9]*)`.  Returns the consumed lexeme and the rest. -/
def pInt (cs : List Char) : Except String (List Char × List Char) :=
  match cs with
  | [] => .error "Expecting value"
  | c :: t =>
    if c = '-' then
      match t with
      | [] => .error "Expecting value"
      | c2 :: t2 =>
        if c2 = '0' then .ok (['-', '0'], t2)
        else if c2.isDigit then
          .ok ('-' :: c2 :: t2.takeWhile Char.isDigit, t2.dropWhile Char.isDigit)
        else .error "Expecting value"
    else if c = '0' then .ok (['0'], t)
    else if c.isDigit then
      .ok (c :: t.takeWhile Char.isDigit, t.dropWhile Char.isDigit)
    else .error "Expecting value"

/-- Optional fraction part `(\.[0-9]+)?`; returns `([], input)` when the
input does not start a valid fraction. -/
def pFrac (cs : List Char) : List Char × List Char :=
  match cs with
  | [] => ([], cs)
  | c :: t =>
    if c = '.' then
      match t with
      | [] => ([], cs)
      | d :: r =>
        if d.isDigit then
          ('.' :: d :: r.takeWhile Char.isDigit, r.dropWhile Char.isDigit)
        else ([], cs)
    else ([], cs)

/-- Optional exponent part `([eE][+-]?[0-9]+)?`; returns `([], input)`
when the input does not start a valid exponent. -/
def pExp (cs : List Char) : List Char × List Char :=
  match cs with
  | e :: sn :: d :: r =>
    if (e = 'e' ∨ e = 'E') ∧ (sn = '+' ∨ sn = '-') ∧ d.isDigit then
      (e :: sn :: d :: r.takeWhile Char.isDigit, r.dropWhile Char.isDigit)
    else if (e = 'e' ∨ e = 'E') ∧ sn.isDigit then
      (e :: sn :: (d :: r).takeWhile Char.isDigit, (d :: r).dropWhile Char.isDigit)
    else ([], cs)
  | [e, sn] =>
    if (e = 'e' ∨ e = 'E') ∧ sn.isDigit then ([e, sn], []) else ([], cs)
  | _ => ([], cs)

/-- JSON number lexer, mirroring the regular expression used by Python's
`json` scanner; returns the full lexeme and the remaining input. -/
def pNumber (cs : List Char) : Except String (String × List Char) :=
  (pInt cs).bind fun ir =>
    .ok (⟨ir.1 ++ (pFrac ir.2).1 ++ (pExp (pFrac ir.2).2).1⟩,
         (pExp (pFrac ir.2).2).2)

/-- Insertion of a parsed object member in front of the members parsed
after it: Python dict insertion keeps the first occurrence's position
and the last occurrence's value for a duplicated key. -/
def dictCombine (k : String) (v : JVal) (kvs : List (String × JVal)) :
    List (String × JVal) :=
  match dictLookup k kvs with
  | some w => (k, w) :: kvs.filter (fun kv => !(kv.1 == k))
  | Option.none => (k, v) :: kvs

mutual

/-- Parse one JSON value (leading whitespace allowed). -/
def pValue : Nat → List Char → Except String (JVal × List Char)
  | 0, _ => .error "Recursion limit"
  | fuel + 1, cs =>
    match skipWs cs with
    | [] => .error "Expecting value"
    | c :: rest =>
      if c = '{' then
        match skipWs rest with
        | '\x7d' :: r => .ok (.obj [], r)
        | r => match pObjLoop fuel r with
               | .ok (kvs, rest') => .ok (.obj kvs, rest')
               | .error e => .error e
      else if c = '[' then
        match skipWs rest with
        | ']' :: r => .ok (.arr [], r)
        | r => match pArrLoop fuel r with
               | .ok (xs, rest') => .ok (.arr xs, rest')
               | .error e => .error e
      else if c = '"' then
        match pStringChars rest with
        | .ok (s, r) => .ok (.str ⟨s⟩, r)
        | .error e => .error e
      else if c = 't' then
        match rest with
        | 'r' :: 'u' :: 'e' :: r => .ok (.bool true, r)
        | _ => .error "Expecting value"
      else if c = 'f' then
        match rest with
        | 'a' :: 'l' :: 's' :: 'e' :: r => .ok (.bool false, r)
        | _ => .error "Expecting value"
      else if c = 'n' then
        match rest with
        | 'u' :: 'l' :: 'l' :: r => .ok (.null, r)
        | _ => .error "Expecting value"
      else if c = '-' ∨ c.isDigit then
        match pNumber (c :: rest) with
        | .ok (lex, r) => .ok (.num lex, r)
        | .error e => .error e
      else .error "Expecting value"

/-- Parse the members of an object after `{` (at least one member). -/
def pObjLoop : Nat → List Char → Except String (List (String × JVal) × List Char)
  | 0, _ => .error "Recursion limit"
  | fuel + 1, cs =>
    match skipWs cs with
    | '"' :: r =>
      match pStringChars r with
      | .error e => .error e
      | .ok (k, r1) =>
        match skipWs r1 with
        | ':' :: r2 =>
          match pValue fuel r2 with
          | .error e => .error e
          | .ok (v, r3) =>
            match skipWs r3 with
            | ',' :: r4 =>
              match pObjLoop fuel r4 with
              | .ok (kvs, rest) => .ok (dictCombine ⟨k⟩ v kvs, rest)
              | .error e => .error e
            | '\x7d' :: r4 => .ok ([(⟨k⟩, v)], r4)
            | _ => .error "Expecting delimiter"
        | _ => .error "Expecting colon"
    | _ => .error "Expecting property name"

/-- Parse the elements of an array after `[` (at least one element). -/
def pArrLoop : Nat → List Char → Except String (List JVal × List Char)
  | 0, _ => .error "Recursion limit"
  | fuel + 1, cs =>
    match pValue fuel cs with
    | .error e => .error e
    | .ok (x, r1) =>
      match skipWs r1 with
      | ',' :: r2 =>
        match pArrLoop fuel r2 with
        | .ok (xs, rest) => .ok (x :: xs, rest)
        | .error e => .error e
      | ']' :: r2 => .ok ([x], r2)
      | _ => .error "Expecting delimiter"

end

/-- Model of `json.loads` on a character list: parse one value and
require only whitespace to remain. -/
def jsonLoadsChars (cs : List Char) : Except String JVal :=
  match pValue (cs.length + 1) cs with
  | .ok (v, rest) =>
    match skipWs rest with
    | [] => .ok v
    | _ => .error "Extra data"
  | .error e => .error e

/-- Model of `json.loads` on a string. -/
def jsonLoads (s : String) : Except String JVal := jsonLoadsChars s.data

/-! ## coerce.py -/

/-- First index of a character in a list. -/
def firstIdx (c : Char) (cs : List Char) : Option Nat := cs.indexOf? c

/-- Last index of a character in a list. -/
def lastIdx (c : Char) (cs : List Char) : Option Nat :=
  match (cs.reverse.indexOf? c) with
  | some i => some (cs.length - 1 - i)
  | Option.none => Option.none

/-- Embeds `_extract_first_json_object` of `src/llmkit/coerce.py`.  The
greedy `re.search(r"\x7b.*\x7d", text, re.DOTALL)` matches from the first
`{` in the text to the last `}`, provided the first `{` comes strictly
before the last `}`. -/
def extract_first_json_object (text : List Char) : Option (List Char) :=
  if text.isEmpty then Option.none
  else
    let s := pyStripChars text
    if s.head? = some '{' ∧ s.getLast? = some '\x7d' then some s
    else
      match firstIdx '{' text, lastIdx '\x7d' text with
      | some i, some j =>
        if i < j then some (pyStripChars ((text.drop i).take (j - i + 1)))
        else Option.none
      | _, _ => Option.none

/-- Whether a parsed value is a Python dict (`isinstance(obj, dict)`). -/
def isDict : JVal → Bool
  | .obj _ => true
  | _ => false

/-- Embeds `coerce_json_object_text` of `src/llmkit/coerce.py`.  The
`Option String` argument models the `text is None` check; the function
returns the pair `(parsed_json_or_none, error_or_none)`. -/
def coerce_json_object_text (text : Option String) : Option JVal × Option String :=
  match text with
  | Option.none => (Option.none, some "empty response")
  | some t =>
    let s := pyStripChars t.data
    if s.isEmpty then (Option.none, some "empty response")
    else
      match jsonLoadsChars s with
      | .ok obj =>
        if isDict obj then (some obj, Option.none)
        else (Option.none, some "parsed JSON is not an object")
      | .error _ =>
        match extract_first_json_object s with
        | Option.none => (Option.none, some "no JSON object found in text")
        | some extracted =>
          match jsonLoadsChars extracted with
          | .ok obj =>
            if isDict obj then (some obj, Option.none)
            else (Option.none, some "extracted JSON is not an object")
          | .error e =>
            (Option.none, some ("json parse failed after extraction: " ++ e))

/-! ## A JSON serializer

`jsonDumps` re-serializes a parsed value to plain JSON text (compact
separators, `ensure_ascii=False` style: only `"`, `\` and control
characters are escaped, the escapes for controls using `\u00XX`).  It is
the serialize step of the coercion-idempotence claim. -/

/-- Lower-case hex digit for a value below 16. -/
def hexDigitChar (n : Nat) : Char :=
  if n < 10 then Char.ofNat ('0'.toNat + n)
  else Char.ofNat ('a'.toNat + n - 10)

/-- Escape one character for a JSON string literal. -/
def escChar (c : Char) : List Char :=
  if c = '"' then ['\\', '"']
  else if c = '\\' then ['\\', '\\']
  else if c.toNat < 0x20 then
    ['\\', 'u', '0', '0', hexDigitChar (c.toNat / 16), hexDigitChar (c.toNat % 16)]
  else [c]

/-- Escape a string body for a JSON string literal. -/
def escStr : List Char → List Char
  | [] => []
  | c :: rest => escChar c ++ escStr rest

mutual

/-- Serialize one value. -/
def dumpChars : JVal → List Char
  | .num lex => lex.data
  | .bool false => ['f', 'a', 'l', 's', 'e']
  | .bool true => ['t', 'r', 'u', 'e']
  | .null => ['n', 'u', 'l', 'l']
  | .str s => '"' :: escStr s.data ++ ['"']
  | .arr xs => '[' :: dumpArrInner xs ++ [']']
  | .obj kvs => '{' :: dumpObjInner kvs ++ ['\x7d']

/-- Serialize the comma-separated elements of an array. -/
def dumpArrInner : List JVal → List Char
  | [] => []
  | [x] => dumpChars x
  | x :: xs => dumpChars x ++ ',' :: dumpArrInner xs

/-- Serialize the comma-separated members of an object. -/
def dumpObjInner : List (String × JVal) → List Char
  | [] => []
  | [(k, v)] => '"' :: escStr k.data ++ '"' :: ':' :: dumpChars v
  | (k, v) :: kvs =>
    ('"' :: escStr k.data ++ '"' :: ':' :: dumpChars v) ++ ',' :: dumpObjInner kvs

end

/-- Serialize a value to a JSON string. -/
def jsonDumps (v : JVal) : String := ⟨dumpChars v⟩

/-! ## input_spec.py -/

/-- Python attribute access `x.strip()` on a value that must be a
string: anything else raises `AttributeError`. -/
def pyAsStr : JVal → Except String String
  | .str s => .ok s
  | _ => .error "AttributeError: object has no attribute strip"

/-- Embeds `_normalize_provider` of `src/llmkit/input_spec.py`:
`(v or "").strip().lower()`, defaulting to `"ytl"` when the result is
not a supported provider.  Raises when `v` is truthy but not a string,
as the Python does. -/
def normalize_provider (v : JVal) : Except String String := do
  let s0 ← pyAsStr (pyOr v (.str ""))
  let s := pyLower (pyStrip s0)
  if s = "openai" ∨ s = "ytl" ∨ s = "gemini" then return s
  else return "ytl"

/-- Default model table of `parse_input`
(`{...}.get(provider, "gpt-4o-mini")`). -/
def default_model (provider : String) : String :=
  if provider = "openai" then "gpt-4o-mini"
  else if provider = "ytl" then "ILMU-text"
  else if provider = "gemini" then "gemini-2.5-flash-lite"
  else "gpt-4o-mini"

/-- Embeds the provider/model slice of `parse_input`
(`src/llmkit/input_spec.py` lines 88-97): provider normalization
followed by `model = (req.get("model") or "").strip()` and the
per-provider default substitution.  The rest of `parse_input` (options,
file references, flags) does not touch these two fields. -/
def parse_input_provider_model (req : List (String × JVal)) :
    Except String (String × String) := do
  let provider ← normalize_provider (dictGetD req "provider" .null)
  let m0 ← pyAsStr (pyOr (dictGetD req "model" .null) (.str ""))
  let m := pyStrip m0
  let model := if m = "" then default_model provider else m
  return (provider, model)

/-- Roles retained by `_sanitize_messages`. -/
def allowedRole (r : String) : Bool :=
  r = "system" ∨ r = "developer" ∨ r = "user" ∨ r = "assistant"

/-- Per-entry loop of `_sanitize_messages`: non-dict entries are
dropped; the role is `(m.get("role") or "").strip().lower()` (raising
when truthy but not a string); entries whose normalized role is not
retained are dropped; retained entries are reduced to the pair
(role, `m.get("content", "")`). -/
def sanitizeLoop : List JVal → Except String (List (String × JVal))
  | [] => .ok []
  | m :: rest =>
    match m with
    | .obj kvs => do
      let r0 ← pyAsStr (pyOr (dictGetD kvs "role" .null) (.str ""))
      let role := pyLower (pyStrip r0)
      let tail ← sanitizeLoop rest
      if allowedRole role then
        .ok ((role, dictGetD kvs "content" (.str "")) :: tail)
      else
        .ok tail
    | _ => sanitizeLoop rest

/-- Embeds `_sanitize_messages` of `src/llmkit/input_spec.py`: `None`
unless the input is a list, else the filtered reduction of its
entries. -/
def sanitize_messages (messages : JVal) :
    Except String (Option (List (String × JVal))) :=
  match messages with
  | .arr ms =>
    match sanitizeLoop ms with
    | .ok out => .ok (some out)
    | .error e => .error e
  | _ => .ok Option.none

/-! ## registry.py -/

/-- Embeds `is_allowed` of `src/llmkit/registry.py`.  The first
argument is the loaded allowlist document: `load_allowlist` returns the
parsed YAML mapping, or `{}` when the file is missing or unreadable
(`_load_yaml` catches every loading failure), so those cases enter here
as `JVal.obj []`.  `set(...)` hashability of the iterated elements is
not re-checked; the claims only exercise lists of strings. -/
def is_allowed (allow : JVal) (provider model : String) (strict : Bool) :
    Except String (Bool × String) :=
  if !strict then .ok (true, "strict=false")
  else if !pyTruthy allow then
    .ok (false, "strict=true but allowlist missing or empty")
  else
    match pyGet allow "providers" with
    | .error e => .error e
    | .ok provJ =>
      match pyIterElems (pyOr provJ (.arr [])) with
      | .error e => .error e
      | .ok provs =>
        if !provs.isEmpty ∧ !strMem provider provs then
          .ok (false, "provider not allowed: " ++ provider)
        else
          match pyGet allow "models" with
          | .error e => .error e
          | .ok modelsJ =>
            match pyGet (pyOr modelsJ (.obj [])) provider with
            | .error e => .error e
            | .ok mJ =>
              match pyIterElems (pyOr mJ (.arr [])) with
              | .error e => .error e
              | .ok ms =>
                if !ms.isEmpty ∧ !strMem model ms then
                  .ok (false,
                    "model not allowed for provider=" ++ provider ++ ": " ++ model)
                else .ok (true, "allowed")

/-! ## prompt_layers.py -/

/-- A prompt message `{"role": ..., "content": ...}` with string
content, the shape `apply_rag_injection` manipulates (the rewrite
templates presuppose string contents; for a string `c`,
`str(c or "") = c`). -/
structure RMsg where
  role : String
  content : String
deriving DecidableEq

instance : Inhabited RMsg := ⟨⟨"", ""⟩⟩

/-- Embeds `_truncate_rag` of `src/llmkit/prompt_layers.py`.  `lim` is
the value of the `LLMKIT_RAG_MAX_CHARS` environment variable (`none`
when unset); a non-positive or unparsable limit leaves the text
unchanged. -/
def truncate_rag (lim : Option String) (text : String) : String :=
  match lim with
  | Option.none => text
  | some l =>
    let s := pyStrip l
    if s = "" then text
    else
      match pyIntParse s with
      | some n =>
        if 0 < n ∧ n.toNat < text.length then ⟨text.data.take n.toNat⟩
        else text
      | Option.none => text

/-- Indices of the messages carrying a given role
(`[i for i, m in enumerate(messages) if m.get("role") == role]`). -/
def roleIdxs (role : String) (ms : List RMsg) : List Nat :=
  (List.range ms.length).filter fun i => (ms.getD i default).role = role

/-- Python `list.insert(i, x)` for a non-negative index: the index is
clamped to the list length (inserting past the end appends). -/
def pyListInsert (i : Nat) (x : RMsg) (xs : List RMsg) : List RMsg :=
  xs.take i ++ x :: xs.drop i

/-- Embeds `apply_rag_injection` of `src/llmkit/prompt_layers.py`.
`lim` is the `LLMKIT_RAG_MAX_CHARS` environment variable consumed by the
internal `_truncate_rag` call.  For `"openai"` a developer message is
inserted after the last system message (position 1 when there is none);
for every other provider the last user message's content is rewritten
around the reference-context template, or a context-only user message is
appended when no user message exists. -/
def apply_rag_injection (lim : Option String) (messages : List RMsg)
    (provider : String) (ragText : String) : List RMsg :=
  let rag := truncate_rag lim ragText
  if provider = "openai" then
    let sysIdxs := roleIdxs "system" messages
    let insertPos := match sysIdxs.getLast? with
      | some i => i + 1
      | Option.none => 1
    pyListInsert insertPos ⟨"developer", rag⟩ messages
  else
    let userIdxs := roleIdxs "user" messages
    match userIdxs.getLast? with
    | some last =>
      let q := (messages.getD last default).content
      messages.set last
        ⟨(messages.getD last default).role,
         "### Reference Context:\n" ++ rag ++ "\n\n### User Question:\n" ++ q⟩
    | Option.none =>
      messages ++ [⟨"user", "### Reference Context:\n" ++ rag⟩]

/-! ## adapters/gemini.py -/

/-- Embeds the HTTP-200 normalization step of `GeminiAdapter.generate`
(`src/llmkit/adapters/gemini.py` lines 82-104), as a function of the
parsed response body `data = r.json()`: the chained
`data.get("candidates", [{}])[0].get("content", {}).get("parts", [{}])[0].get("text", "")`
text extraction, the `usageMetadata` token counts with `or 0` defaults,
and the re-normalized OpenAI-shaped result (which also carries the
native body under `"gemini_raw"`). -/
def gemini_normalize (data : JVal) : Except String JVal := do
  let cands ← pyGetD data "candidates" (.arr [.obj []])
  let c0 ← pyIndex0 cands
  let content ← pyGetD c0 "content" (.obj [])
  let parts ← pyGetD content "parts" (.arr [.obj []])
  let p0 ← pyIndex0 parts
  let text ← pyGetD p0 "text" (.str "")
  let usage0 ← pyGetD data "usageMetadata" (.obj [])
  let usage := pyOr usage0 (.obj [])
  let pt0 ← pyGetD usage "promptTokenCount" (.num "0")
  let ct0 ← pyGetD usage "candidatesTokenCount" (.num "0")
  let tt0 ← pyGetD usage "totalTokenCount" (.num "0")
  return .obj
    [("choices", .arr [.obj [("message",
        .obj [("role", .str "assistant"), ("content", text)])]]),
     ("usage", .obj
        [("prompt_tokens", pyOr pt0 (.num "0")),
         ("completion_tokens", pyOr ct0 (.num "0")),
         ("total_tokens", pyOr tt0 (.num "0"))]),
     ("gemini_raw", data)]

/-! ## client.py -/

/-- Body of `LLMClient._extract_text` before its blanket
`except Exception: return ""`. -/
def extract_text_body (raw : JVal) : Except String String := do
  let choicesRaw ← pyGet raw "choices"
  let choices := pyOr choicesRaw (.arr [])
  if !pyTruthy choices then return ""
  let c0 ← pyIndex0 choices
  let msgRaw ← pyGet c0 "message"
  let msg := pyOr msgRaw (.obj [])
  let contentRaw ← pyGet msg "content"
  return pyStr (pyOr contentRaw (.str ""))

/-- Embeds `LLMClient._extract_text`: the body above wrapped in
`try/except Exception: return ""`. -/
def extract_text (raw : JVal) : String :=
  match extract_text_body raw with
  | .ok s => s
  | .error _ => ""

/-- The fields of the parsed `InputSpec` that `LLMClient.run` itself
reads before prompt preparation. -/
structure Spec0 where
  provider : String
  model : String
  strict : Bool

/-- The `PreparedRequest` fields that `LLMClient.run` reads after
`prepare_request` (`messages`/`options` are forwarded opaquely to the
adapter and are part of the `gen` effect below). -/
structure Prepared where
  provider : String
  model : String
  return_json : Bool

/-- The `view` part of the result envelope. -/
structure View where
  provider : String
  model : String
  text : String
  json : Option JVal
  return_json : Bool

/-- The result envelope `{"raw": ..., "view": ..., "parse_error": ...,
"meta": {...}}`; of `meta` the model keeps the failure-stage marker
`meta["where"]` (the timing entries in `meta["steps"]` are wall-clock
measurements outside the embedding). -/
structure Envelope where
  raw : Option JVal
  view : Option View
  parse_error : Option String
  metaWhere : Option String

/-- The effectful collaborators of `LLMClient.run`, supplied as oracles:
`parse` is the outcome of `parse_input` (which may raise, e.g. on an
unreadable file reference), `allow` of `is_allowed` for the given
provider/model/strict triple, `prep` of `prepare_request`, and `gen` of
`adapter.generate` (network errors raise `LlmAdapterError`).  Each
`Except.error` is a raised Python exception carrying its message. -/
structure RunOracle where
  parse : Except String Spec0
  allow : String → String → Bool → Except String (Bool × String)
  prep : Spec0 → Except String Prepared
  gen : Prepared → Except String JVal

/-- The provider keys of the `self._adapters` table built by
`LLMClient.__init__`. -/
def adapterProviders : List String := ["openai", "ytl", "gemini"]

/-- The `try` block of `LLMClient.run` (`src/llmkit/client.py` lines
37-91): parse, allowlist gate (short-circuit envelope on block), prompt
preparation, adapter lookup (short-circuit envelope on miss), adapter
call, text extraction and conditional coercion, success envelope. -/
def runBody (o : RunOracle) : Except String Envelope := do
  let spec ← o.parse
  let (ok, reason) ← o.allow spec.provider spec.model spec.strict
  if !ok then
    return ⟨Option.none, Option.none, some reason, some "allowlist"⟩
  let prepared ← o.prep spec
  if !adapterProviders.contains prepared.provider then
    return ⟨Option.none, Option.none,
            some ("unsupported provider: " ++ prepared.provider),
            some "adapter_select"⟩
  let raw ← o.gen prepared
  let text := extract_text raw
  let (parsedJson, parseError) :=
    if prepared.return_json then coerce_json_object_text (some text)
    else (Option.none, Option.none)
  return ⟨some raw,
          some ⟨prepared.provider, prepared.model, text, parsedJson,
                prepared.return_json⟩,
          parseError, Option.none⟩

/-- Embeds `LLMClient.run`: the `try` block above wrapped in the
`except Exception` handler, which converts any raised exception into the
failure envelope with `meta["where"]` falling back to `"LLMClient.run"`
(no earlier statement sets `meta["where"]` before raising, so the
`meta.get("where") or ...` fallback always yields `"LLMClient.run"`
there). -/
def LLMClient_run (o : RunOracle) : Envelope :=
  match runBody o with
  | .ok e => e
  | .error msg => ⟨Option.none, Option.none, some msg, some "LLMClient.run"⟩

/-! ## Auxiliary definitions used by the theorem statements -/

mutual

/-- Fuel-depth measure of a value: enough fuel for `pValue` to parse
it back from its serialization. -/
def sizeJ : JVal → Nat
  | .null => 1
  | .bool _ => 1
  | .num _ => 1
  | .str _ => 1
  | .arr xs => sizeL xs + 1
  | .obj kvs => sizeO kvs + 1

/-- Fuel-depth measure of an array's elements. -/
def sizeL : List JVal → Nat
  | [] => 1
  | x :: xs => max (sizeJ x) (sizeL xs) + 1

/-- Fuel-depth measure of an object's members. -/
def sizeO : List (String × JVal) → Nat
  | [] => 1
  | (_, v) :: kvs => max (sizeJ v) (sizeO kvs) + 1

end

/-- A serializer-boundary suffix: empty, or starting with one of the
characters that can follow a serialized value inside a serialized
container (and that cannot extend a number lexeme). -/
def bdOk (X : List Char) : Prop :=
  ∀ c, X.head? = some c → c = ',' ∨ c = '\x7d' ∨ c = ']'

/-- A value parses back, with any boundary suffix and any sufficient
fuel, from its own serialization; together with the fuel bound making
`jsonLoads`'s `length + 1` fuel sufficient. -/
def GoodV (v : JVal) : Prop :=
  (∀ X g, bdOk X → sizeJ v ≤ g →
    pValue g (dumpChars v ++ X) = .ok (v, X))
  ∧ sizeJ v ≤ (dumpChars v).length
  ∧ ∃ c t, dumpChars v = c :: t ∧ jIsWs c = false ∧ ¬c = ']'

/-- The keys of an object are pairwise distinct (an invariant of every
dict built by the parser). -/
def keysNodup (kvs : List (String × JVal)) : Prop :=
  (kvs.map Prod.fst).Nodup

/-- A value is a string or falsy: the shapes on which Python's
`(v or "").strip()` idiom cannot raise. -/
def strOrFalsy (v : JVal) : Bool :=
  match v with
  | .str _ => true
  | v => !pyTruthy v

/-- An entry of a `messages` array whose `role` field (if the entry is
a dict) is a string or falsy. -/
def entryRoleOk (m : JVal) : Bool :=
  match m with
  | .obj kvs => strOrFalsy (dictGetD kvs "role" .null)
  | _ => true

/-- What `_sanitize_messages` retains of one entry: dict entries whose
normalized role is recognized are reduced to the (role, content) pair,
everything else is dropped.  (Total description, valid on entries
satisfying `entryRoleOk`.) -/
def entryReduce (m : JVal) : Option (String × JVal) :=
  match m with
  | .obj kvs =>
    match pyOr (dictGetD kvs "role" .null) (.str "") with
    | .str s =>
      let role := pyLower (pyStrip s)
      if allowedRole role then some (role, dictGetD kvs "content" (.str ""))
      else Option.none
    | _ => Option.none
  | _ => Option.none

/-! ## Claim theorems -/

/-- C5: `coerce_json_object_text` succeeds with `{a: 1}` and a null
error on the exact text `{"a":1}`, on the triple-backtick-fenced
variant, and on `noise {"a":1} trailing` (recovered as the substring
from the first `{` to the last `}`); on `not json at all` it returns a
null value and a non-null error string. -/
theorem coerce_round_trip_cases :
    coerce_json_object_text (some "\x7b\"a\":1\x7d") =
      (some (.obj [("a", .num "1")]), Option.none)
  ∧ coerce_json_object_text (some "```json\n\x7b\"a\":1\x7d\n```") =
      (some (.obj [("a", .num "1")]), Option.none)
  ∧ coerce_json_object_text (some "noise \x7b\"a\":1\x7d trailing") =
      (some (.obj [("a", .num "1")]), Option.none)
  ∧ coerce_json_object_text (some "not json at all") =
      (Option.none, some "no JSON object found in text") :=
  ⟨rfl, rfl, rfl, rfl⟩

/-- C10: whenever the stripped input parses directly as JSON whose
value is not an object, `coerce_json_object_text` immediately returns a
null value with the error `parsed JSON is not an object` (no fence or
brace recovery is attempted); in particular `[{"a":1}]` fails this way
instead of recovering the embedded object. -/
theorem coerce_non_object_short_circuit :
    (∀ (t : String) (v : JVal),
      jsonLoadsChars (pyStripChars t.data) = .ok v →
      isDict v = false →
      coerce_json_object_text (some t) =
        (Option.none, some "parsed JSON is not an object"))
  ∧ coerce_json_object_text (some "[\x7b\"a\":1\x7d]") =
      (Option.none, some "parsed JSON is not an object") := by
  constructor
  · intro t v hload hdict
    have hne : (pyStripChars t.data).isEmpty = false := by
      by_contra hc
      have he : pyStripChars t.data = [] := by
        cases h : (pyStripChars t.data).isEmpty
        · exact absurd h hc
        · exact List.isEmpty_iff.mp h
      rw [he] at hload
      simp [jsonLoadsChars, pValue, skipWs] at hload
    simp [coerce_json_object_text, hne, hload, hdict]
  · rfl

/-- Witness for C10: at the concrete input `[{"a":1}]`, the direct
parse succeeds with a non-object (an array), and the theorem applies. -/
theorem coerce_non_object_short_circuit_witness :
    jsonLoadsChars (pyStripChars ("[\x7b\"a\":1\x7d]" : String).data) =
      .ok (.arr [.obj [("a", .num "1")]])
  ∧ coerce_json_object_text (some "[\x7b\"a\":1\x7d]") =
      (Option.none, some "parsed JSON is not an object") :=
  ⟨rfl, coerce_non_object_short_circuit.1 "[\x7b\"a\":1\x7d]"
    (.arr [.obj [("a", .num "1")]]) rfl rfl⟩

/-- Truthiness of a non-empty list value. -/
theorem pyTruthy_arr_cons (x : JVal) (xs : List JVal) :
    pyTruthy (.arr (x :: xs)) = true := rfl

/-- Truthiness of the empty list value. -/
theorem pyTruthy_arr_nil : pyTruthy (.arr []) = false := rfl

/-- Python `str` of a string value is itself. -/
theorem pyStr_str (s : String) : pyStr (.str s) = s := rfl

/-- C8 (amended): `_extract_text` is total (the `except` handler turns
any raised exception into `""`); on a dict input it returns `""` when
the `choices` value is absent or falsy (null, empty list, ...), and for
a well-structured path it returns `""` when `choices[0].message.content`
is absent or falsy, and `str(content)` when the content is truthy.  (The
original claim's `otherwise the string form of the content` clause fails
for present-but-falsy contents such as `0` or `false`, which yield `""`;
see the counterexample.) -/
theorem extract_text_spec (raw : JVal) :
    (∀ e, extract_text_body raw = .error e → extract_text raw = "")
  ∧ (∀ kvs, raw = .obj kvs →
      (pyTruthy (dictGetD kvs "choices" .null) = false → extract_text raw = "")
    ∧ (∀ c0 rest mkvs msgkvs,
        dictGetD kvs "choices" .null = .arr (c0 :: rest) →
        c0 = .obj mkvs →
        pyOr (dictGetD mkvs "message" .null) (.obj []) = .obj msgkvs →
          (pyTruthy (dictGetD msgkvs "content" .null) = false →
              extract_text raw = "")
        ∧ (pyTruthy (dictGetD msgkvs "content" .null) = true →
              extract_text raw = pyStr (dictGetD msgkvs "content" .null)))) := by
  refine ⟨?_, ?_⟩
  · intro e he
    simp [extract_text, he]
  · rintro kvs rfl
    constructor
    · intro hfalsy
      simp [extract_text, extract_text_body, bind, Except.bind, pyGet, pyGetD,
            pyOr, hfalsy, pyTruthy_arr_nil, pure, Except.pure]
    · intro c0 rest mkvs msgkvs hch hc0 hmsg
      subst hc0
      rw [pyOr] at hmsg
      constructor
      · intro hcf
        simp [extract_text, extract_text_body, bind, Except.bind, pyGet, pyGetD,
              hch, pyOr, pyTruthy_arr_cons, pyIndex0, hmsg, hcf, pyStr_str,
              pure, Except.pure]
      · intro hct
        simp [extract_text, extract_text_body, bind, Except.bind, pyGet, pyGetD,
              hch, pyOr, pyTruthy_arr_cons, pyIndex0, hmsg, hct, pure,
              Except.pure]

/-- Counterexample to C8 as stated: with `content` present and equal to
the number `0` (not absent, not null), the code returns `""`, not the
string form `"0"` of the content. -/
theorem extract_text_falsy_content_counterexample :
    extract_text (.obj [("choices", .arr [.obj [("message",
        .obj [("content", .num "0")])]])]) = ""
  ∧ pyStr (.num "0") = "0"
  ∧ ("" : String) ≠ "0" :=
  ⟨rfl, rfl, by decide⟩

/-- Witness for C8: a well-structured response with truthy content
`"hi"` extracts to `"hi"`. -/
theorem extract_text_spec_witness :
    extract_text (.obj [("choices", .arr [.obj [("message",
        .obj [("content", .str "hi")])]])]) = "hi" := by
  have h := (((extract_text_spec (.obj [("choices", .arr [.obj [("message",
      .obj [("content", .str "hi")])]])])).2 _ rfl).2
    (.obj [("message", .obj [("content", .str "hi")])]) []
    [("message", .obj [("content", .str "hi")])]
    [("content", .str "hi")] rfl rfl rfl).2 rfl
  simpa using h

/-- Evaluation of `_normalize_provider` on a string value. -/
theorem normalize_provider_str (s : String) :
    normalize_provider (.str s) =
      .ok (if pyLower (pyStrip s) = "openai" ∨ pyLower (pyStrip s) = "ytl" ∨
              pyLower (pyStrip s) = "gemini"
           then pyLower (pyStrip s) else "ytl") := by
  by_cases hs : s = ""
  · subst hs; rfl
  · have hb : (s == "") = false := by simpa using hs
    simp only [normalize_provider, pyOr, pyTruthy, hb, Bool.not_false, if_true,
               pyAsStr, bind, Except.bind, pure, Except.pure]
    split <;> rfl

/-- Evaluation of `_normalize_provider` on a falsy value: the `or`
fallback empty string normalizes to the default provider. -/
theorem normalize_provider_falsy (v : JVal) (h : pyTruthy v = false) :
    normalize_provider v = .ok "ytl" := by
  simp [normalize_provider, pyOr, h, pyAsStr, bind, Except.bind, pure,
        Except.pure, pyLower, pyStrip, pyStripChars]

/-- A non-string value satisfying `strOrFalsy` is falsy. -/
theorem strOrFalsy_not_str (v : JVal) (hv : ∀ s, v ≠ .str s)
    (h : strOrFalsy v = true) : pyTruthy v = false := by
  cases v with
  | str s => exact absurd rfl (hv s)
  | null => rfl
  | bool b => simpa [strOrFalsy] using h
  | num lex => simpa [strOrFalsy] using h
  | arr xs => simpa [strOrFalsy] using h
  | obj kvs => simpa [strOrFalsy] using h

/-- Case summary of `_normalize_provider` on string-or-falsy inputs:
it succeeds, lands in the supported set, and defaults to `ytl` on
unsupported or falsy input. -/
theorem provider_norm_cases (v : JVal) (hp : strOrFalsy v = true) :
    ∃ p, normalize_provider v = .ok p
      ∧ (p = "openai" ∨ p = "ytl" ∨ p = "gemini")
      ∧ (∀ s, v = .str s →
           pyLower (pyStrip s) ≠ "openai" → pyLower (pyStrip s) ≠ "ytl" →
           pyLower (pyStrip s) ≠ "gemini" → p = "ytl")
      ∧ (pyTruthy v = false → p = "ytl") := by
  cases hvs : v with
  | str s =>
    refine ⟨_, normalize_provider_str s, ?_, ?_, ?_⟩
    · by_cases h1 : pyLower (pyStrip s) = "openai" ∨ pyLower (pyStrip s) = "ytl" ∨
          pyLower (pyStrip s) = "gemini"
      · rw [if_pos h1]; exact h1
      · rw [if_neg h1]; right; left; rfl
    · intro s' hs' h1 h2 h3
      have hss : s' = s := by injection hs'.symm
      subst hss
      rw [if_neg (by tauto)]
    · intro hf
      have hs0 : s = "" := by simpa [pyTruthy] using hf
      subst hs0
      rw [if_neg (by decide)]
  | null =>
    exact ⟨"ytl", normalize_provider_falsy _ rfl, by tauto,
           fun s hs => absurd hs (by simp), fun _ => rfl⟩
  | bool b =>
    have hf : pyTruthy (JVal.bool b) = false :=
      strOrFalsy_not_str _ (fun s => by simp) (hvs ▸ hp)
    exact ⟨"ytl", normalize_provider_falsy _ hf, by tauto,
           fun s hs => absurd hs (by simp), fun _ => rfl⟩
  | num lex =>
    have hf : pyTruthy (JVal.num lex) = false :=
      strOrFalsy_not_str _ (fun s => by simp) (hvs ▸ hp)
    exact ⟨"ytl", normalize_provider_falsy _ hf, by tauto,
           fun s hs => absurd hs (by simp), fun _ => rfl⟩
  | arr xs =>
    have hf : pyTruthy (JVal.arr xs) = false :=
      strOrFalsy_not_str _ (fun s => by simp) (hvs ▸ hp)
    exact ⟨"ytl", normalize_provider_falsy _ hf, by tauto,
           fun s hs => absurd hs (by simp), fun _ => rfl⟩
  | obj kvs =>
    have hf : pyTruthy (JVal.obj kvs) = false :=
      strOrFalsy_not_str _ (fun s => by simp) (hvs ▸ hp)
    exact ⟨"ytl", normalize_provider_falsy _ hf, by tauto,
           fun s hs => absurd hs (by simp), fun _ => rfl⟩

/-- Python `s or ""` on a string is the string itself. -/
theorem pyOr_str_empty (s : String) : pyOr (.str s) (.str "") = .str s := by
  by_cases hs : s = ""
  · subst hs; rfl
  · have hb : (s == "") = false := by simpa using hs
    simp [pyOr, pyTruthy, hb]

/-- Python `v or w` picks `w` when `v` is falsy. -/
theorem pyOr_falsy (v w : JVal) (h : pyTruthy v = false) : pyOr v w = w := by
  simp [pyOr, h]

/-- C6 (amended): for every input object whose `provider` and `model`
fields are each absent, falsy, or a string, the provider/model slice of
`parse_input` does not raise; the resulting provider is in the
supported set, defaulting to `ytl` when the field is falsy or its
trimmed lower-casing is unsupported; the resulting model is non-empty,
replaced by the resolved provider's fixed default (`gpt-4o-mini`,
`ILMU-text`, `gemini-2.5-flash-lite`) when the field is falsy or trims
to empty.  (The original claim's `for every input object ... never
raises` fails when the provider or model field holds a truthy
non-string, on which `(v or "").strip()` raises `AttributeError`; see
the counterexample.) -/
theorem parse_input_provider_model_spec (req : List (String × JVal))
    (hp : strOrFalsy (dictGetD req "provider" .null) = true)
    (hm : strOrFalsy (dictGetD req "model" .null) = true) :
    ∃ p m, parse_input_provider_model req = .ok (p, m)
      ∧ (p = "openai" ∨ p = "ytl" ∨ p = "gemini")
      ∧ m ≠ ""
      ∧ (∀ s, dictGetD req "provider" .null = .str s →
           pyLower (pyStrip s) ≠ "openai" → pyLower (pyStrip s) ≠ "ytl" →
           pyLower (pyStrip s) ≠ "gemini" → p = "ytl")
      ∧ (pyTruthy (dictGetD req "provider" .null) = false → p = "ytl")
      ∧ (∀ s, dictGetD req "model" .null = .str s → pyStrip s = "" →
           m = default_model p)
      ∧ (pyTruthy (dictGetD req "model" .null) = false → m = default_model p)
      ∧ default_model "openai" = "gpt-4o-mini"
      ∧ default_model "ytl" = "ILMU-text"
      ∧ default_model "gemini" = "gemini-2.5-flash-lite" := by
  obtain ⟨p, hpn, hpsup, hpu1, hpu2⟩ := provider_norm_cases _ hp
  have hdm : default_model p ≠ "" := by
    rcases hpsup with rfl | rfl | rfl <;> simp [default_model]
  have hM : ∃ m0, pyAsStr (pyOr (dictGetD req "model" .null) (.str "")) = .ok m0
      ∧ (∀ s, dictGetD req "model" .null = .str s → m0 = s)
      ∧ (pyTruthy (dictGetD req "model" .null) = false → pyStrip m0 = "") := by
    cases hvs : dictGetD req "model" .null with
    | str s =>
      refine ⟨s, by rw [pyOr_str_empty]; rfl, fun s' hs' => by cases hs'; rfl, ?_⟩
      intro hf
      have hs0 : s = "" := by simpa [pyTruthy] using hf
      subst hs0; rfl
    | null =>
      have hf : pyTruthy JVal.null = false := rfl
      exact ⟨"", by rw [pyOr_falsy _ _ hf]; rfl,
             fun s hs => absurd hs (by simp), fun _ => rfl⟩
    | bool b =>
      have hf : pyTruthy (JVal.bool b) = false :=
        strOrFalsy_not_str _ (fun s => by simp) (hvs ▸ hm)
      exact ⟨"", by rw [pyOr_falsy _ _ hf]; rfl,
             fun s hs => absurd hs (by simp), fun _ => rfl⟩
    | num lex =>
      have hf : pyTruthy (JVal.num lex) = false :=
        strOrFalsy_not_str _ (fun s => by simp) (hvs ▸ hm)
      exact ⟨"", by rw [pyOr_falsy _ _ hf]; rfl,
             fun s hs => absurd hs (by simp), fun _ => rfl⟩
    | arr xs =>
      have hf : pyTruthy (JVal.arr xs) = false :=
        strOrFalsy_not_str _ (fun s => by simp) (hvs ▸ hm)
      exact ⟨"", by rw [pyOr_falsy _ _ hf]; rfl,
             fun s hs => absurd hs (by simp), fun _ => rfl⟩
    | obj kvs =>
      have hf : pyTruthy (JVal.obj kvs) = false :=
        strOrFalsy_not_str _ (fun s => by simp) (hvs ▸ hm)
      exact ⟨"", by rw [pyOr_falsy _ _ hf]; rfl,
             fun s hs => absurd hs (by simp), fun _ => rfl⟩
  obtain ⟨m0, hm0, hm0s, hm0f⟩ := hM
  refine ⟨p, if pyStrip m0 = "" then default_model p else pyStrip m0, ?_, hpsup,
          ?_, hpu1, hpu2, ?_, ?_, rfl, rfl, rfl⟩
  · simp [parse_input_provider_model, hpn, hm0, bind, Except.bind, pure,
          Except.pure]
  · by_cases hb : pyStrip m0 = ""
    · rw [if_pos hb]; exact hdm
    · rw [if_neg hb]; exact hb
  · intro s hs hstrip
    rw [hm0s s hs, if_pos hstrip]
  · intro hf
    rw [if_pos (hm0f hf)]

/-- Counterexample to C6 as stated: a truthy non-string `provider`
value (the number `5`) makes the provider/model parse raise an
`AttributeError` instead of normalizing to the default provider. -/
theorem parse_input_provider_model_counterexample :
    parse_input_provider_model [("provider", .num "5")] =
      .error "AttributeError: object has no attribute strip" := rfl

/-- Witness for C6: the empty request (both fields absent) parses to
the default provider `ytl` and its default model `ILMU-text`. -/
theorem parse_input_provider_model_spec_witness :
    strOrFalsy (dictGetD ([] : List (String × JVal)) "provider" .null) = true
  ∧ parse_input_provider_model [] = .ok ("ytl", "ILMU-text") := by
  refine ⟨rfl, ?_⟩
  obtain ⟨p, m, h1, hsup, hne, hu1, hu2, hm1, hm2, hd1, hd2, hd3⟩ :=
    parse_input_provider_model_spec [] rfl rfl
  have hpy : p = "ytl" := hu2 rfl
  subst hpy
  have hmy : m = default_model "ytl" := hm2 rfl
  rw [hmy, hd2] at h1
  exact h1

/-- The entry loop of `_sanitize_messages` equals an order-preserving
`filterMap` on entries whose role field is a string or falsy. -/
theorem sanitizeLoop_spec (ms : List JVal) (h : ms.all entryRoleOk = true) :
    sanitizeLoop ms = .ok (ms.filterMap entryReduce) := by
  induction ms with
  | nil => rfl
  | cons m rest ih =>
    have hm : entryRoleOk m = true := by
      rw [List.all_cons] at h
      exact (Bool.and_eq_true _ _ |>.mp h).1
    have hrest : rest.all entryRoleOk = true := by
      rw [List.all_cons] at h
      exact (Bool.and_eq_true _ _ |>.mp h).2
    have ihr := ih hrest
    cases m with
    | obj kvs =>
      have hrole : strOrFalsy (dictGetD kvs "role" .null) = true := by
        simpa [entryRoleOk] using hm
      cases hv : dictGetD kvs "role" .null with
      | str s =>
        simp only [sanitizeLoop, hv, pyOr_str_empty, pyAsStr, bind, Except.bind,
                   ihr, List.filterMap_cons, entryReduce, pure, Except.pure]
        by_cases ha : allowedRole (pyLower (pyStrip s))
        · simp [ha]
        · simp [ha]
      | null =>
        have hf : pyTruthy JVal.null = false := rfl
        simp only [sanitizeLoop, hv, pyOr_falsy _ _ hf, pyAsStr, bind,
                   Except.bind, ihr, List.filterMap_cons, entryReduce, pure,
                   Except.pure]
        simp [allowedRole, pyLower, pyStrip, pyStripChars]
      | bool b =>
        have hf : pyTruthy (JVal.bool b) = false :=
          strOrFalsy_not_str _ (fun s => by simp) (hv ▸ hrole)
        simp only [sanitizeLoop, hv, pyOr_falsy _ _ hf, pyAsStr, bind,
                   Except.bind, ihr, List.filterMap_cons, entryReduce, pure,
                   Except.pure]
        simp [hf, allowedRole, pyLower, pyStrip, pyStripChars]
      | num lex =>
        have hf : pyTruthy (JVal.num lex) = false :=
          strOrFalsy_not_str _ (fun s => by simp) (hv ▸ hrole)
        simp only [sanitizeLoop, hv, pyOr_falsy _ _ hf, pyAsStr, bind,
                   Except.bind, ihr, List.filterMap_cons, entryReduce, pure,
                   Except.pure]
        simp [hf, allowedRole, pyLower, pyStrip, pyStripChars]
      | arr xs =>
        have hf : pyTruthy (JVal.arr xs) = false :=
          strOrFalsy_not_str _ (fun s => by simp) (hv ▸ hrole)
        simp only [sanitizeLoop, hv, pyOr_falsy _ _ hf, pyAsStr, bind,
                   Except.bind, ihr, List.filterMap_cons, entryReduce, pure,
                   Except.pure]
        simp [hf, allowedRole, pyLower, pyStrip, pyStripChars]
      | obj kvs' =>
        have hf : pyTruthy (JVal.obj kvs') = false :=
          strOrFalsy_not_str _ (fun s => by simp) (hv ▸ hrole)
        simp only [sanitizeLoop, hv, pyOr_falsy _ _ hf, pyAsStr, bind,
                   Except.bind, ihr, List.filterMap_cons, entryReduce, pure,
                   Except.pure]
        simp [hf, allowedRole, pyLower, pyStrip, pyStripChars]
    | null => simpa [sanitizeLoop, entryReduce] using ihr
    | bool b => simpa [sanitizeLoop, entryReduce] using ihr
    | num lex => simpa [sanitizeLoop, entryReduce] using ihr
    | str s => simpa [sanitizeLoop, entryReduce] using ihr
    | arr xs => simpa [sanitizeLoop, entryReduce] using ihr

/-- C7 (amended): for every incoming messages array in which each
object entry's `role` field is absent, falsy, or a string, the
normalized output retains exactly those entries that are dicts whose
role, after trimming and lower-casing, is one of
system/developer/user/assistant; every other entry (non-dict, falsy
role, unrecognized role) is absent; each retained entry is reduced to
the pair (normalized role, `content` value, defaulting to `""` when
absent), and retained entries keep their relative order (the output is
a `filterMap` of the input).  (As stated, the claim fails twice: a
truthy non-string role raises `AttributeError` instead of being
dropped, and a role matching only up to case/whitespace, e.g. `"USER"`,
is retained in normalized form rather than dropped; see the
counterexample.) -/
theorem sanitize_messages_spec (ms : List JVal) (h : ms.all entryRoleOk = true) :
    sanitize_messages (.arr ms) = .ok (some (ms.filterMap entryReduce)) := by
  simp [sanitize_messages, sanitizeLoop_spec ms h]

/-- Counterexample to C7 as stated: an entry whose role is the truthy
non-string `5` makes `_sanitize_messages` raise instead of dropping the
entry, and an entry with role `"USER"` (not literally one of the four
role strings) is retained (normalized) rather than absent. -/
theorem sanitize_messages_counterexample :
    sanitize_messages (.arr [.obj [("role", .num "5")]]) =
      .error "AttributeError: object has no attribute strip"
  ∧ sanitize_messages (.arr [.obj [("role", .str "USER"), ("content", .str "hi")]]) =
      .ok (some [("user", .str "hi")]) :=
  ⟨rfl, rfl⟩

/-- Witness for C7: a mixed message list (kept entry with an extra
field, unrecognized role, non-dict entry, case-insensitive system role
with null content) reduces to the two retained, reduced, ordered
entries. -/
theorem sanitize_messages_spec_witness :
    sanitize_messages (.arr
      [.obj [("role", .str "user"), ("content", .str "hi"), ("x", .num "1")],
       .obj [("role", .str "tool"), ("content", .str "z")],
       .str "junk",
       .obj [("role", .str " System "), ("content", .null)]]) =
      .ok (some [("user", .str "hi"), ("system", .null)]) :=
  (sanitize_messages_spec
    [.obj [("role", .str "user"), ("content", .str "hi"), ("x", .num "1")],
     .obj [("role", .str "tool"), ("content", .str "z")],
     .str "junk",
     .obj [("role", .str " System "), ("content", .null)]] rfl).trans rfl

/-- Strict-mode reduction of `is_allowed` once the policy document's
fields are resolved to their iterated shapes. -/
theorem is_allowed_reduction (kvs : List (String × JVal)) (provider model : String)
    (provs ms : List JVal) (mkvs : List (String × JVal))
    (h2 : pyTruthy (.obj kvs) = true)
    (h3 : pyOr (dictGetD kvs "providers" .null) (.arr []) = .arr provs)
    (h4 : pyOr (dictGetD kvs "models" .null) (.obj []) = .obj mkvs)
    (h5 : pyOr (dictGetD mkvs provider .null) (.arr []) = .arr ms) :
    is_allowed (.obj kvs) provider model true =
      (if !provs.isEmpty ∧ !strMem provider provs
       then .ok (false, "provider not allowed: " ++ provider)
       else if !ms.isEmpty ∧ !strMem model ms
       then .ok (false, "model not allowed for provider=" ++ provider ++ ": " ++ model)
       else .ok (true, "allowed")) := by
  rw [is_allowed]
  simp only [Bool.not_true, Bool.false_eq_true, if_false, h2, pyGet, pyGetD]
  rw [h3]
  simp only [pyIterElems]
  split
  · rfl
  · rw [h4]
    simp only [pyGetD]
    rw [h5]

/-- C3: `is_allowed` returns `(true, "strict=false")` whenever strict
is false, regardless of the policy; under strict mode it blocks with
`strict=true but allowlist missing or empty` when the loaded policy is
falsy (which is how a missing, unreadable, or empty document arrives
here, since `load_allowlist`/`_load_yaml` catch every loading failure
and return `{}`); it blocks when the policy's non-empty providers list
does not contain the provider; it blocks when the policy's non-empty
model list for that provider does not contain the model; and otherwise
it allows with reason `allowed`. -/
theorem is_allowed_spec (allow : JVal) (provider model : String) :
    (is_allowed allow provider model false = .ok (true, "strict=false"))
  ∧ (pyTruthy allow = false →
       is_allowed allow provider model true =
         .ok (false, "strict=true but allowlist missing or empty"))
  ∧ (∀ kvs provs mkvs ms,
       allow = .obj kvs → pyTruthy allow = true →
       pyOr (dictGetD kvs "providers" .null) (.arr []) = .arr provs →
       pyOr (dictGetD kvs "models" .null) (.obj []) = .obj mkvs →
       pyOr (dictGetD mkvs provider .null) (.arr []) = .arr ms →
         (provs ≠ [] → strMem provider provs = false →
            is_allowed allow provider model true =
              .ok (false, "provider not allowed: " ++ provider))
       ∧ ((provs = [] ∨ strMem provider provs = true) →
           ms ≠ [] → strMem model ms = false →
            is_allowed allow provider model true =
              .ok (false, "model not allowed for provider=" ++ provider ++ ": " ++ model))
       ∧ ((provs = [] ∨ strMem provider provs = true) →
          (ms = [] ∨ strMem model ms = true) →
            is_allowed allow provider model true = .ok (true, "allowed"))) := by
  refine ⟨rfl, ?_, ?_⟩
  · intro h
    rw [is_allowed]
    simp [h]
  · intro kvs provs mkvs ms h1 h2 h3 h4 h5
    subst h1
    have hred := is_allowed_reduction kvs provider model provs ms mkvs h2 h3 h4 h5
    refine ⟨?_, ?_, ?_⟩
    · intro hne hsm
      rw [hred, if_pos]
      exact ⟨by simpa [List.isEmpty_iff] using hne, by simp [hsm]⟩
    · intro hp hne hsm
      rw [hred, if_neg, if_pos]
      · exact ⟨by simpa [List.isEmpty_iff] using hne, by simp [hsm]⟩
      · rcases hp with hp | hp
        · subst hp; simp
        · simp [hp]
    · intro hp hm
      rw [hred, if_neg, if_neg]
      · rcases hm with hm | hm
        · subst hm; simp
        · simp [hm]
      · rcases hp with hp | hp
        · subst hp; simp
        · simp [hp]

/-- Witness for C3: a concrete one-provider policy allows its own
pair, the empty policy blocks under strict mode, and strict=false
always allows. -/
theorem is_allowed_spec_witness :
    is_allowed (.obj [("providers", .arr [.str "openai"]),
                      ("models", .obj [("openai", .arr [.str "gpt-4o-mini"])])])
        "openai" "gpt-4o-mini" true = .ok (true, "allowed")
  ∧ is_allowed (.obj []) "openai" "gpt-4o-mini" true =
      .ok (false, "strict=true but allowlist missing or empty")
  ∧ is_allowed (.obj []) "openai" "gpt-4o-mini" false =
      .ok (true, "strict=false") := by
  refine ⟨?_, ?_, ?_⟩
  · exact (((is_allowed_spec _ "openai" "gpt-4o-mini").2.2
      [("providers", .arr [.str "openai"]),
       ("models", .obj [("openai", .arr [.str "gpt-4o-mini"])])]
      [.str "openai"] [("openai", .arr [.str "gpt-4o-mini"])]
      [.str "gpt-4o-mini"] rfl rfl rfl rfl rfl).2.2
      (Or.inr rfl) (Or.inr rfl))
  · exact (is_allowed_spec (.obj []) "openai" "gpt-4o-mini").2.1 rfl
  · exact (is_allowed_spec (.obj []) "openai" "gpt-4o-mini").1

/-- C4 (amended): for every Gemini HTTP-200 response body that is a
JSON object whose `candidates` value, when present, is a non-empty list
headed by an object (and likewise down the `content`/`parts` path, each
step either absent — picking up the chain's default — or an object /
non-empty object-headed list), the adapter returns the OpenAI-shaped
dictionary
`{choices: [{message: {role: "assistant", content: text}}], usage: {...}}`
(plus the native body under `gemini_raw`), where `text` is
`candidates[0].content.parts[0].text` with `""` when the `text` key is
absent, and each usage count is the corresponding `usageMetadata` field
with `0` when absent or falsy.  (As stated the claim fails: an empty
`candidates` list — or empty `parts` list, or a null/non-object
intermediate value — raises `IndexError`/`AttributeError` instead of
yielding the empty string; see the counterexample.) -/
theorem gemini_normalize_spec (kvs c0kvs contkvs p0kvs ukvs : List (String × JVal))
    (crest prest : List JVal)
    (h1 : dictGetD kvs "candidates" (.arr [.obj []]) = .arr (.obj c0kvs :: crest))
    (h2 : dictGetD c0kvs "content" (.obj []) = .obj contkvs)
    (h3 : dictGetD contkvs "parts" (.arr [.obj []]) = .arr (.obj p0kvs :: prest))
    (h4 : pyOr (dictGetD kvs "usageMetadata" (.obj [])) (.obj []) = .obj ukvs) :
    gemini_normalize (.obj kvs) = .ok (.obj
      [("choices", .arr [.obj [("message", .obj
          [("role", .str "assistant"),
           ("content", dictGetD p0kvs "text" (.str ""))])]]),
       ("usage", .obj
          [("prompt_tokens",
              pyOr (dictGetD ukvs "promptTokenCount" (.num "0")) (.num "0")),
           ("completion_tokens",
              pyOr (dictGetD ukvs "candidatesTokenCount" (.num "0")) (.num "0")),
           ("total_tokens",
              pyOr (dictGetD ukvs "totalTokenCount" (.num "0")) (.num "0"))]),
       ("gemini_raw", .obj kvs)]) := by
  simp only [gemini_normalize, pyGetD, bind, Except.bind, h1, pyIndex0, h2, h3,
             h4, pure, Except.pure]

/-- Counterexample to C4 as stated: a 200 body with an empty
`candidates` list makes `data.get("candidates", [{}])[0]` raise
`IndexError` instead of normalizing with an empty text. -/
theorem gemini_normalize_counterexample :
    gemini_normalize (.obj [("candidates", .arr [])]) =
      .error "IndexError: list index out of range" := rfl

/-- Witness for C4: the empty body normalizes through all the defaults
to an assistant message with empty content and zero token counts. -/
theorem gemini_normalize_spec_witness :
    gemini_normalize (.obj []) = .ok (.obj
      [("choices", .arr [.obj [("message", .obj
          [("role", .str "assistant"), ("content", .str "")])]]),
       ("usage", .obj
          [("prompt_tokens", .num "0"),
           ("completion_tokens", .num "0"),
           ("total_tokens", .num "0")]),
       ("gemini_raw", .obj [])]) :=
  (gemini_normalize_spec [] [] [] [] [] [] [] rfl rfl rfl rfl).trans rfl

/-- In a strictly increasing list the last element is the maximum. -/
theorem pairwise_lt_getLast_max (l : List Nat) (b : Nat)
    (hp : l.Pairwise (· < ·)) (hl : l.getLast? = some b) :
    ∀ a ∈ l, a ≤ b := by
  induction l with
  | nil => simp at hl
  | cons x xs ih =>
    intro a ha
    cases hxs : xs with
    | nil =>
      subst hxs
      simp at hl ha
      omega
    | cons y ys =>
      subst hxs
      have hlast : (y :: ys).getLast? = some b := by
        rw [← hl]
        simp [List.getLast?_cons_cons]
      have hbmem : b ∈ y :: ys := by
        obtain ⟨h, hb⟩ :=
          List.mem_getLast?_eq_getLast (Option.mem_def.mpr hlast)
        rw [hb]
        exact List.getLast_mem h
      rcases List.mem_cons.mp ha with rfl | hmem
      · have hx := (List.pairwise_cons.mp hp).1 b hbmem
        omega
      · exact ih hp.of_cons hlast a hmem

/-- The last element of `roleIdxs` is a valid index carrying the role,
and no later index carries it: it is the last message of that role. -/
theorem roleIdxs_getLast_spec (r : String) (ms : List RMsg) (i : Nat)
    (h : (roleIdxs r ms).getLast? = some i) :
    i < ms.length ∧ (ms.getD i default).role = r
  ∧ ∀ j, i < j → j < ms.length → (ms.getD j default).role ≠ r := by
  have hmem : i ∈ roleIdxs r ms := by
    obtain ⟨hne, hb⟩ := List.mem_getLast?_eq_getLast (Option.mem_def.mpr h)
    rw [hb]
    exact List.getLast_mem hne
  have hmem' := List.mem_filter.mp hmem
  have hrange : i < ms.length := List.mem_range.mp hmem'.1
  have hrole : (ms.getD i default).role = r := by simpa using hmem'.2
  have hpair : (roleIdxs r ms).Pairwise (· < ·) :=
    List.Pairwise.filter _ (List.pairwise_lt_range ms.length)
  have hmax := pairwise_lt_getLast_max _ i hpair h
  refine ⟨hrange, hrole, ?_⟩
  intro j hij hjlen hrj
  have hjmem : j ∈ roleIdxs r ms :=
    List.mem_filter.mpr ⟨List.mem_range.mpr hjlen, by simpa using hrj⟩
  have := hmax j hjmem
  omega

/-- When `roleIdxs` is empty no message carries the role. -/
theorem roleIdxs_getLast_none (r : String) (ms : List RMsg)
    (h : (roleIdxs r ms).getLast? = Option.none) :
    ∀ j, j < ms.length → (ms.getD j default).role ≠ r := by
  have hnil : roleIdxs r ms = [] := by
    cases hc : roleIdxs r ms with
    | nil => rfl
    | cons x xs =>
      rw [hc] at h
      simp [List.getLast?] at h
  intro j hj
  have := List.filter_eq_nil_iff.mp hnil j (List.mem_range.mpr hj)
  simpa using this

/-- C2 (amended): with the resolved context `truncate_rag lim rag`
(the claim's capped resolved context text): for provider `"openai"` the
result is the input with exactly one new `{role: developer}` message
(length grows by one) inserted immediately after the last system-role
message, or at index 1 when no system message exists and the list is
non-empty — Python's `list.insert` clamps, so on an empty list the
message becomes the sole element at index 0 (this is where the claim's
unconditional `at index 1` fails, see the counterexample); for every
other provider the last user-role message's content is rewritten to
`### Reference Context:\n{context}\n\n### User Question:\n{original}`
with all other messages unchanged, and when no user-role message exists
a new user message holding only the reference-context block is
appended.  (`take p ++ new :: drop p` is Python's clamping
`insert(p, new)`; `roleIdxs_getLast_spec`/`roleIdxs_getLast_none` state
what `last system/user message` means.) -/
theorem apply_rag_injection_spec (lim : Option String) (ms : List RMsg)
    (provider : String) (rag : String) :
    (provider = "openai" →
      (apply_rag_injection lim ms provider rag).length = ms.length + 1
    ∧ (∀ i, (roleIdxs "system" ms).getLast? = some i →
        apply_rag_injection lim ms provider rag =
          ms.take (i + 1) ++ ⟨"developer", truncate_rag lim rag⟩ :: ms.drop (i + 1))
    ∧ ((roleIdxs "system" ms).getLast? = Option.none →
        apply_rag_injection lim ms provider rag =
          ms.take 1 ++ ⟨"developer", truncate_rag lim rag⟩ :: ms.drop 1))
  ∧ (provider ≠ "openai" →
      (∀ i, (roleIdxs "user" ms).getLast? = some i →
        apply_rag_injection lim ms provider rag =
          ms.set i ⟨(ms.getD i default).role,
            "### Reference Context:\n" ++ truncate_rag lim rag ++
            "\n\n### User Question:\n" ++ (ms.getD i default).content⟩)
    ∧ ((roleIdxs "user" ms).getLast? = Option.none →
        apply_rag_injection lim ms provider rag =
          ms ++ [⟨"user", "### Reference Context:\n" ++ truncate_rag lim rag⟩])) := by
  constructor
  · rintro rfl
    refine ⟨?_, ?_, ?_⟩
    · rw [apply_rag_injection, if_pos rfl]
      simp only [pyListInsert, List.length_append, List.length_cons,
                 List.length_take, List.length_drop]
      omega
    · intro i hi
      rw [apply_rag_injection, if_pos rfl]
      simp only [hi]
      rfl
    · intro hn
      rw [apply_rag_injection, if_pos rfl]
      simp only [hn]
      rfl
  · intro hne
    constructor
    · intro i hi
      rw [apply_rag_injection, if_neg hne]
      simp only [hi]
    · intro hn
      rw [apply_rag_injection, if_neg hne]
      simp only [hn]

/-- Counterexample to C2 as stated: on the empty message list with
provider `openai`, the developer message is the sole element — at index
0, not at the claimed index 1 (a length-1 list has no index 1). -/
theorem apply_rag_injection_empty_counterexample :
    apply_rag_injection Option.none [] "openai" "ctx" =
      [⟨"developer", "ctx"⟩]
  ∧ (apply_rag_injection Option.none [] "openai" "ctx").length = 1 :=
  ⟨rfl, rfl⟩

/-- Witness for C2: a system+user conversation under a non-OpenAI
provider rewrites the last user message around the template, and under
OpenAI inserts the developer message right after the system message. -/
theorem apply_rag_injection_spec_witness :
    apply_rag_injection Option.none
        [⟨"system", "s"⟩, ⟨"user", "u"⟩] "gemini" "ctx" =
      [⟨"system", "s"⟩,
       ⟨"user", "### Reference Context:\nctx\n\n### User Question:\nu"⟩]
  ∧ apply_rag_injection Option.none
        [⟨"system", "s"⟩, ⟨"user", "u"⟩] "openai" "ctx" =
      [⟨"system", "s"⟩, ⟨"developer", "ctx"⟩, ⟨"user", "u"⟩] := by
  constructor
  · exact (((apply_rag_injection_spec Option.none
      [⟨"system", "s"⟩, ⟨"user", "u"⟩] "gemini" "ctx").2
      (by decide)).1 1 rfl).trans rfl
  · exact (((apply_rag_injection_spec Option.none
      [⟨"system", "s"⟩, ⟨"user", "u"⟩] "openai" "ctx").1 rfl).2.1 0 rfl).trans rfl

/-- C1: `LLMClient.run` always returns an envelope (totality of
`LLMClient_run` models `never raises`: the blanket `except` converts
any exception from the collaborators, modelled by the oracle's
`Except.error` outcomes, into an envelope).  The three failure paths
carry `raw = null`, `view = null`, a non-null `parse_error`, and
`meta.where` naming the stage: an allowlist block yields
`"allowlist"`, an unrecognized provider at adapter lookup yields
`"adapter_select"` with `parse_error = "unsupported provider: ..."`,
and any exception from an inner component yields the generic
`"LLMClient.run"` with the exception text.  The final disjunction shows
these are the only failure shapes: every run is either such a failure
envelope or a success with `meta.where = null` and non-null
`raw`/`view`. -/
theorem LLMClient_run_spec (o : RunOracle) :
    (∀ msg, runBody o = .error msg →
        LLMClient_run o = ⟨Option.none, Option.none, some msg, some "LLMClient.run"⟩)
  ∧ (∀ spec reason, o.parse = .ok spec →
        o.allow spec.provider spec.model spec.strict = .ok (false, reason) →
        LLMClient_run o = ⟨Option.none, Option.none, some reason, some "allowlist"⟩)
  ∧ (∀ spec reason prepared, o.parse = .ok spec →
        o.allow spec.provider spec.model spec.strict = .ok (true, reason) →
        o.prep spec = .ok prepared →
        adapterProviders.contains prepared.provider = false →
        LLMClient_run o = ⟨Option.none, Option.none,
          some ("unsupported provider: " ++ prepared.provider),
          some "adapter_select"⟩)
  ∧ (((LLMClient_run o).raw = Option.none ∧ (LLMClient_run o).view = Option.none
      ∧ (∃ s, (LLMClient_run o).parse_error = some s)
      ∧ ((LLMClient_run o).metaWhere = some "allowlist" ∨
         (LLMClient_run o).metaWhere = some "adapter_select" ∨
         (LLMClient_run o).metaWhere = some "LLMClient.run"))
   ∨ ((LLMClient_run o).metaWhere = Option.none
      ∧ ∃ r v, (LLMClient_run o).raw = some r ∧ (LLMClient_run o).view = some v)) := by
  refine ⟨?_, ?_, ?_, ?_⟩
  · intro msg h
    simp [LLMClient_run, h]
  · intro spec reason hp ha
    simp [LLMClient_run, runBody, hp, ha, bind, Except.bind, pure, Except.pure]
  · intro spec reason prepared hp ha hpre hcont
    have hmem : prepared.provider ∉ adapterProviders := by simpa using hcont
    simp [LLMClient_run, runBody, hp, ha, hpre, hmem, bind, Except.bind, pure,
          Except.pure]
  · cases hp : o.parse with
    | error e =>
      left
      simp [LLMClient_run, runBody, hp, bind, Except.bind]
    | ok spec =>
      cases ha : o.allow spec.provider spec.model spec.strict with
      | error e =>
        left
        simp [LLMClient_run, runBody, hp, ha, bind, Except.bind]
      | ok pr =>
        obtain ⟨b, reason⟩ := pr
        cases b with
        | false =>
          left
          simp [LLMClient_run, runBody, hp, ha, bind, Except.bind, pure,
                Except.pure]
        | true =>
          cases hpre : o.prep spec with
          | error e =>
            left
            simp [LLMClient_run, runBody, hp, ha, hpre, bind, Except.bind,
                  pure, Except.pure]
          | ok prepared =>
            cases hcont : adapterProviders.contains prepared.provider with
            | false =>
              left
              have hmem : prepared.provider ∉ adapterProviders := by
                simpa using hcont
              simp [LLMClient_run, runBody, hp, ha, hpre, hmem, bind,
                    Except.bind, pure, Except.pure]
            | true =>
              have hmem : prepared.provider ∈ adapterProviders := by
                simpa using hcont
              cases hg : o.gen prepared with
              | error e =>
                left
                simp [LLMClient_run, runBody, hp, ha, hpre, hmem, hg, bind,
                      Except.bind, pure, Except.pure]
              | ok raw =>
                right
                simp [LLMClient_run, runBody, hp, ha, hpre, hmem, hg, bind,
                      Except.bind, pure, Except.pure]

/-- Witness for C1: a parse exception produces the generic failure
envelope, and an allowlist block the `allowlist` one. -/
theorem LLMClient_run_spec_witness :
    LLMClient_run ⟨.error "boom", fun _ _ _ => .ok (true, "allowed"),
        fun _ => .error "unused", fun _ => .error "unused"⟩ =
      ⟨Option.none, Option.none, some "boom", some "LLMClient.run"⟩
  ∧ LLMClient_run ⟨.ok ⟨"openai", "gpt-4o-mini", true⟩,
        fun _ _ _ => .ok (false, "blocked"),
        fun _ => .error "unused", fun _ => .error "unused"⟩ =
      ⟨Option.none, Option.none, some "blocked", some "allowlist"⟩ :=
  ⟨(LLMClient_run_spec _).1 "boom" rfl,
   (LLMClient_run_spec _).2.1 ⟨"openai", "gpt-4o-mini", true⟩ "blocked" rfl rfl⟩

theorem hexVal_hexDigitChar (d : Nat) (h : d < 16) :
    hexVal (hexDigitChar d) = some d := by
  interval_cases d <;> rfl

theorem hex4_encode (n : Nat) (h : n < 256) :
    hex4 '0' '0' (hexDigitChar (n / 16)) (hexDigitChar (n % 16)) = some n := by
  have h1 : n / 16 < 16 := by omega
  have h2 : n % 16 < 16 := by omega
  have h0 : hexVal '0' = some 0 := rfl
  rw [hex4]
  simp only [h0, hexVal_hexDigitChar _ h1, hexVal_hexDigitChar _ h2, bind,
             Option.bind, pure, Option.some.injEq]
  omega

theorem pStrF_step (f : Nat) (T : List Char) (c : Char) : pStrF (f + 1) (c :: T) =
    (if c = '"' then .ok ([], T)
     else if c = '\\' then pEscF f T
     else if c.toNat < 0x20 then .error "Invalid control character"
     else mapCons c (pStrF f T)) := rfl

theorem pStrF_escStr (s : List Char) : ∀ (rest : List Char) (g : Nat),
    s.length + 1 ≤ g → pStrF g (escStr s ++ '"' :: rest) = .ok (s, rest) := by
  induction s with
  | nil =>
    intro rest g hg
    obtain ⟨g', rfl⟩ : ∃ g', g = g' + 1 := ⟨g - 1, by omega⟩
    rfl
  | cons c cs ih =>
    intro rest g hg
    obtain ⟨g', rfl⟩ : ∃ g', g = g' + 1 := ⟨g - 1, by omega⟩
    have hg' : cs.length + 1 ≤ g' := by
      simp only [List.length_cons] at hg
      omega
    show pStrF (g' + 1) (escChar c ++ escStr cs ++ '"' :: rest) =
      .ok (c :: cs, rest)
    by_cases h1 : c = '"'
    · subst h1
      rw [show escChar '"' = ['\\', '"'] from rfl]
      simp only [List.cons_append, List.nil_append]
      rw [pStrF_step, if_neg (by decide : ¬ ('\\' : Char) = '"'), if_pos rfl]
      show mapCons '"' (pStrF g' (escStr cs ++ '"' :: rest)) = _
      rw [ih rest g' hg']
      rfl
    · by_cases h2 : c = '\\'
      · subst h2
        rw [show escChar '\\' = ['\\', '\\'] from rfl]
        simp only [List.cons_append, List.nil_append]
        rw [pStrF_step, if_neg (by decide : ¬ ('\\' : Char) = '"'), if_pos rfl]
        show mapCons '\\' (pStrF g' (escStr cs ++ '"' :: rest)) = _
        rw [ih rest g' hg']
        rfl
      · by_cases h3 : c.toNat < 0x20
        · rw [escChar]
          simp only [if_neg h1, if_neg h2, if_pos h3, List.cons_append,
                     List.nil_append]
          rw [pStrF_step, if_neg (by decide : ¬ ('\\' : Char) = '"'), if_pos rfl]
          show pEscF g'
            ('u' :: '0' :: '0' :: hexDigitChar (c.toNat / 16) ::
              hexDigitChar (c.toNat % 16) :: (escStr cs ++ '"' :: rest)) = _
          have hstep : pEscF g'
              ('u' :: '0' :: '0' :: hexDigitChar (c.toNat / 16) ::
                hexDigitChar (c.toNat % 16) :: (escStr cs ++ '"' :: rest)) =
              (match hex4 '0' '0' (hexDigitChar (c.toNat / 16))
                  (hexDigitChar (c.toNat % 16)) with
               | Option.none => .error "Invalid hex escape"
               | some n =>
                 if n < 0xD800 ∨ 0xE000 ≤ n then
                   mapCons (Char.ofNat n) (pStrF g' (escStr cs ++ '"' :: rest))
                 else if n < 0xDC00 then
                   pSurrF g' n (escStr cs ++ '"' :: rest)
                 else .error "Unpaired surrogate") := rfl
          rw [hstep, hex4_encode c.toNat (by omega)]
          trans (mapCons (Char.ofNat c.toNat) (pStrF g' (escStr cs ++ '"' :: rest)))
          · exact if_pos (Or.inl (by omega : c.toNat < 0xD800))
          · rw [ih rest g' hg', Char.ofNat_toNat]
            rfl
        · rw [escChar]
          simp only [if_neg h1, if_neg h2, if_neg h3, List.cons_append,
                     List.nil_append]
          rw [pStrF_step, if_neg h1, if_neg h2, if_neg h3]
          rw [ih rest g' hg']
          rfl

theorem dropWhile_head_not (p : Char → Bool) (l : List Char) :
    ∀ c, (l.dropWhile p).head? = some c → p c = false := by
  induction l with
  | nil => intro c h; simp at h
  | cons a t ih =>
    intro c h
    by_cases ha : p a
    · rw [List.dropWhile_cons_of_pos ha] at h
      exact ih c h
    · rw [List.dropWhile_cons_of_neg ha] at h
      simp at h
      rw [← h]
      simpa using ha

theorem takeWhile_all (p : Char → Bool) (l : List Char) :
    ∀ c ∈ l.takeWhile p, p c = true := by
  induction l with
  | nil => intro c h; simp at h
  | cons a t ih =>
    intro c h
    by_cases ha : p a
    · rw [List.takeWhile_cons_of_pos ha] at h
      rcases List.mem_cons.mp h with rfl | h2
      · exact ha
      · exact ih c h2
    · rw [List.takeWhile_cons_of_neg ha] at h
      simp at h

theorem span_append (a b : List Char) (ha : ∀ c ∈ a, c.isDigit = true)
    (hb : ∀ c, b.head? = some c → c.isDigit = false) :
    (a ++ b).takeWhile Char.isDigit = a ∧
    (a ++ b).dropWhile Char.isDigit = b := by
  induction a with
  | nil =>
    simp only [List.nil_append]
    cases b with
    | nil => exact ⟨rfl, rfl⟩
    | cons c t =>
      have := hb c rfl
      rw [List.takeWhile_cons_of_neg (by simp [this]),
          List.dropWhile_cons_of_neg (by simp [this])]
      exact ⟨rfl, rfl⟩
  | cons x a ih =>
    have hx : x.isDigit = true := ha x (by simp)
    have ih2 := ih (fun c hc => ha c (by simp [hc]))
    simp only [List.cons_append]
    rw [List.takeWhile_cons_of_pos hx, List.dropWhile_cons_of_pos hx]
    exact ⟨by rw [ih2.1], by rw [ih2.2]⟩

theorem pInt_step (c : Char) (t : List Char) : pInt (c :: t) =
    (if c = '-' then
      match t with
      | [] => .error "Expecting value"
      | c2 :: t2 =>
        if c2 = '0' then .ok (['-', '0'], t2)
        else if c2.isDigit then
          .ok ('-' :: c2 :: t2.takeWhile Char.isDigit, t2.dropWhile Char.isDigit)
        else .error "Expecting value"
    else if c = '0' then .ok (['0'], t)
    else if c.isDigit then
      .ok (c :: t.takeWhile Char.isDigit, t.dropWhile Char.isDigit)
    else .error "Expecting value") := rfl

theorem pInt_sign_step (c2 : Char) (t2 : List Char) : pInt ('-' :: c2 :: t2) =
    (if c2 = '0' then .ok (['-', '0'], t2)
     else if c2.isDigit then
       .ok ('-' :: c2 :: t2.takeWhile Char.isDigit, t2.dropWhile Char.isDigit)
     else .error "Expecting value") := rfl

theorem pInt_spec (cs il r : List Char) (h : pInt cs = .ok (il, r)) :
    cs = il ++ r
  ∧ (∃ c cs', il = c :: cs' ∧ (c = '-' ∨ c.isDigit = true))
  ∧ ∀ X, (∀ c, X.head? = some c → c.isDigit = false) → pInt (il ++ X) = .ok (il, X) := by
  cases cs with
  | nil => exact absurd h (by simp [pInt])
  | cons c t =>
    by_cases h1 : c = '-'
    · subst h1
      cases t with
      | nil =>
        rw [show pInt ['-'] = Except.error "Expecting value" from rfl] at h
        cases h
      | cons c2 t2 =>
        rw [pInt_sign_step] at h
        by_cases h2 : c2 = '0'
        · subst h2
          rw [if_pos rfl] at h
          cases h
          refine ⟨rfl, ⟨'-', ['0'], rfl, Or.inl rfl⟩, ?_⟩
          intro X hX
          rfl
        · rw [if_neg h2] at h
          by_cases h3 : c2.isDigit
          · rw [if_pos h3] at h
            cases h
            refine ⟨by simp [List.takeWhile_append_dropWhile],
                    ⟨'-', _, rfl, Or.inl rfl⟩, ?_⟩
            intro X hX
            have hspan := span_append (t2.takeWhile Char.isDigit) X
              (takeWhile_all _ _) hX
            simp only [List.cons_append]
            rw [pInt_sign_step, if_neg h2, if_pos h3, hspan.1, hspan.2]
          · rw [if_neg h3] at h
            cases h
    · rw [pInt_step, if_neg h1] at h
      by_cases h2 : c = '0'
      · subst h2
        rw [if_pos rfl] at h
        cases h
        exact ⟨rfl, ⟨'0', [], rfl, Or.inr (by decide)⟩, fun X hX => rfl⟩
      · rw [if_neg h2] at h
        by_cases h3 : c.isDigit
        · rw [if_pos h3] at h
          cases h
          refine ⟨by simp [List.takeWhile_append_dropWhile],
                  ⟨c, _, rfl, Or.inr h3⟩, ?_⟩
          intro X hX
          have hspan := span_append (t.takeWhile Char.isDigit) X
            (takeWhile_all _ _) hX
          simp only [List.cons_append]
          rw [pInt_step, if_neg h1, if_neg h2, if_pos h3, hspan.1, hspan.2]
        · rw [if_neg h3] at h
          cases h

theorem pFrac_step (c : Char) (t : List Char) : pFrac (c :: t) =
    (if c = '.' then
      match t with
      | [] => ([], c :: t)
      | d :: r =>
        if d.isDigit then
          ('.' :: d :: r.takeWhile Char.isDigit, r.dropWhile Char.isDigit)
        else ([], c :: t)
    else ([], c :: t)) := rfl

theorem pFrac_dot_step (d : Char) (r : List Char) : pFrac ('.' :: d :: r) =
    (if d.isDigit then
      ('.' :: d :: r.takeWhile Char.isDigit, r.dropWhile Char.isDigit)
     else ([], '.' :: d :: r)) := rfl

theorem pFrac_nil_replay : ∀ X : List Char,
    (∀ c, X.head? = some c → ¬ c = '.') → pFrac X = ([], X) := by
  intro X hX
  cases X with
  | nil => rfl
  | cons c t =>
    rw [pFrac_step, if_neg (hX c rfl)]

theorem pFrac_spec (cs fl r : List Char) (h : pFrac cs = (fl, r)) :
    cs = fl ++ r
  ∧ (fl = [] ∨ ∃ d t, fl = '.' :: d :: t)
  ∧ ∀ X, (∀ c, X.head? = some c → c.isDigit = false ∧ ¬ c = '.') →
      pFrac (fl ++ X) = (fl, X) := by
  cases cs with
  | nil =>
    cases h
    exact ⟨rfl, Or.inl rfl, fun X hX =>
      pFrac_nil_replay X (fun c hc => (hX c hc).2)⟩
  | cons c t =>
    by_cases hc : c = '.'
    · subst hc
      cases t with
      | nil =>
        cases h
        exact ⟨rfl, Or.inl rfl, fun X hX =>
          pFrac_nil_replay X (fun c hc => (hX c hc).2)⟩
      | cons d r2 =>
        rw [pFrac_dot_step] at h
        by_cases hd : d.isDigit
        · rw [if_pos hd] at h
          cases h
          refine ⟨by simp [List.takeWhile_append_dropWhile], Or.inr ⟨d, _, rfl⟩, ?_⟩
          intro X hX
          have hspan := span_append (r2.takeWhile Char.isDigit) X
            (takeWhile_all _ _) (fun c hc => (hX c hc).1)
          simp only [List.cons_append]
          rw [pFrac_dot_step, if_pos hd, hspan.1, hspan.2]
        · rw [if_neg hd] at h
          cases h
          exact ⟨rfl, Or.inl rfl, fun X hX =>
            pFrac_nil_replay X (fun c hc => (hX c hc).2)⟩
    · rw [pFrac_step, if_neg hc] at h
      cases h
      exact ⟨rfl, Or.inl rfl, fun X hX =>
        pFrac_nil_replay X (fun c hc => (hX c hc).2)⟩


theorem digit_not_sign (c : Char) (h : c.isDigit = true) :
    ¬ (c = '+' ∨ c = '-') := by
  rintro (rfl | rfl) <;> exact absurd h (by decide)

theorem pExp_step3 (e sn d : Char) (r : List Char) : pExp (e :: sn :: d :: r) =
    (if (e = 'e' ∨ e = 'E') ∧ (sn = '+' ∨ sn = '-') ∧ d.isDigit then
      (e :: sn :: d :: r.takeWhile Char.isDigit, r.dropWhile Char.isDigit)
    else if (e = 'e' ∨ e = 'E') ∧ sn.isDigit then
      (e :: sn :: (d :: r).takeWhile Char.isDigit, (d :: r).dropWhile Char.isDigit)
    else ([], e :: sn :: d :: r)) := rfl

theorem pExp_step2 (e sn : Char) : pExp [e, sn] =
    (if (e = 'e' ∨ e = 'E') ∧ sn.isDigit then ([e, sn], []) else ([], [e, sn])) := rfl

theorem pExp_nil_replay : ∀ X : List Char,
    (∀ c, X.head? = some c → ¬ (c = 'e' ∨ c = 'E')) → pExp X = ([], X) := by
  intro X hX
  match X with
  | [] => rfl
  | [e] => rfl
  | [e, sn] =>
    rw [pExp_step2, if_neg]
    rintro ⟨he, _⟩
    exact hX e rfl he
  | e :: sn :: d :: r =>
    rw [pExp_step3, if_neg, if_neg]
    · rintro ⟨he, _⟩
      exact hX e rfl he
    · rintro ⟨he, _⟩
      exact hX e rfl he

theorem pExp_spec (cs el r : List Char) (h : pExp cs = (el, r)) :
    cs = el ++ r
  ∧ (el = [] ∨ ∃ e' t', el = e' :: t' ∧ (e' = 'e' ∨ e' = 'E'))
  ∧ ∀ X, (∀ c, X.head? = some c →
        c.isDigit = false ∧ ¬ (c = 'e' ∨ c = 'E')) →
      pExp (el ++ X) = (el, X) := by
  have hnil : ∀ cs0 : List Char, ([], cs0) = (el, r) →
      cs0 = el ++ r
    ∧ (el = [] ∨ ∃ e' t', el = e' :: t' ∧ (e' = 'e' ∨ e' = 'E'))
    ∧ ∀ X, (∀ c, X.head? = some c →
          c.isDigit = false ∧ ¬ (c = 'e' ∨ c = 'E')) →
        pExp (el ++ X) = (el, X) := by
    intro cs0 hh
    cases hh
    exact ⟨rfl, Or.inl rfl, fun X hX =>
      pExp_nil_replay X (fun c hc => (hX c hc).2)⟩
  match cs with
  | [] => exact hnil [] h
  | [e] => exact hnil [e] h
  | [e, sn] =>
    rw [pExp_step2] at h
    by_cases hc : (e = 'e' ∨ e = 'E') ∧ sn.isDigit
    · rw [if_pos hc] at h
      cases h
      refine ⟨by simp, Or.inr ⟨e, _, rfl, hc.1⟩, ?_⟩
      intro X hX
      match X with
      | [] => rw [List.append_nil, pExp_step2, if_pos hc]
      | c :: t =>
        have hcd := hX c rfl
        simp only [List.cons_append, List.append_nil, List.nil_append]
        rw [pExp_step3, if_neg, if_pos hc]
        · rw [List.takeWhile_cons_of_neg (by simp [hcd.1]),
              List.dropWhile_cons_of_neg (by simp [hcd.1])]
        · rintro ⟨-, hs, -⟩
          exact digit_not_sign sn hc.2 hs
    · rw [if_neg hc] at h
      exact hnil [e, sn] h
  | e :: sn :: d :: r2 =>
    rw [pExp_step3] at h
    by_cases h1 : (e = 'e' ∨ e = 'E') ∧ (sn = '+' ∨ sn = '-') ∧ d.isDigit
    · rw [if_pos h1] at h
      cases h
      refine ⟨by simp [List.takeWhile_append_dropWhile], Or.inr ⟨e, _, rfl, h1.1⟩, ?_⟩
      intro X hX
      have hspan := span_append (r2.takeWhile Char.isDigit) X
        (takeWhile_all _ _) (fun c hc => (hX c hc).1)
      simp only [List.cons_append]
      rw [pExp_step3, if_pos ⟨h1.1, h1.2.1, h1.2.2⟩, hspan.1, hspan.2]
    · rw [if_neg h1] at h
      by_cases h2 : (e = 'e' ∨ e = 'E') ∧ sn.isDigit
      · rw [if_pos h2] at h
        by_cases hd : d.isDigit
        · rw [List.takeWhile_cons_of_pos hd, List.dropWhile_cons_of_pos hd] at h
          cases h
          refine ⟨by simp [List.takeWhile_append_dropWhile],
                  Or.inr ⟨e, _, rfl, h2.1⟩, ?_⟩
          intro X hX
          have hspan := span_append (r2.takeWhile Char.isDigit) X
            (takeWhile_all _ _) (fun c hc => (hX c hc).1)
          simp only [List.cons_append]
          rw [pExp_step3, if_neg, if_pos h2]
          · rw [List.takeWhile_cons_of_pos hd, List.dropWhile_cons_of_pos hd,
                hspan.1, hspan.2]
          · rintro ⟨-, hs, -⟩
            exact digit_not_sign sn h2.2 hs
        · rw [List.takeWhile_cons_of_neg (by simpa using hd),
              List.dropWhile_cons_of_neg (by simpa using hd)] at h
          cases h
          refine ⟨by simp, Or.inr ⟨e, _, rfl, h2.1⟩, ?_⟩
          intro X hX
          match X with
          | [] => rw [List.append_nil, pExp_step2, if_pos h2]
          | c :: t =>
            have hcd := hX c rfl
            simp only [List.cons_append, List.append_nil, List.nil_append]
            rw [pExp_step3, if_neg, if_pos h2]
            · rw [List.takeWhile_cons_of_neg (by simp [hcd.1]),
                  List.dropWhile_cons_of_neg (by simp [hcd.1])]
            · rintro ⟨-, hs, -⟩
              exact digit_not_sign sn h2.2 hs
      · rw [if_neg h2] at h
        exact hnil _ h

theorem bdOk_facts (X : List Char) (h : bdOk X) :
    ∀ c, X.head? = some c →
      c.isDigit = false ∧ ¬ c = '.' ∧ ¬ (c = 'e' ∨ c = 'E') := by
  intro c hc
  rcases h c hc with rfl | rfl | rfl
  · exact ⟨by decide, by decide, by decide⟩
  · exact ⟨by decide, by decide, by decide⟩
  · exact ⟨by decide, by decide, by decide⟩

theorem head_cond_append {P : Char → Prop} (L X : List Char)
    (hL : ∀ c, L.head? = some c → P c) (hX : ∀ c, X.head? = some c → P c) :
    ∀ c, (L ++ X).head? = some c → P c := by
  cases L with
  | nil => simpa using hX
  | cons a t =>
    intro c hc
    simp only [List.cons_append, List.head?_cons, Option.some.injEq] at hc
    exact hc ▸ hL a rfl

theorem pNumber_spec (cs : List Char) (lex : String) (r : List Char)
    (h : pNumber cs = .ok (lex, r)) :
    cs = lex.data ++ r
  ∧ (∃ c cs', lex.data = c :: cs' ∧ (c = '-' ∨ c.isDigit = true))
  ∧ ∀ X, bdOk X → pNumber (lex.data ++ X) = .ok (lex, X) := by
  rw [pNumber] at h
  rcases hI : pInt cs with e | ⟨il, r1⟩
  · rw [hI] at h; cases h
  · rw [hI] at h
    simp only [Except.bind] at h
    rcases hF : pFrac r1 with ⟨fl, r2⟩
    rw [hF] at h
    rcases hE : pExp r2 with ⟨el, r3⟩
    rw [hE] at h
    simp only [Except.ok.injEq, Prod.mk.injEq] at h
    obtain ⟨hlex, hr⟩ := h
    subst hr
    obtain ⟨hIc, ⟨hc, hcs2, hil, hchead⟩, hIrep⟩ := pInt_spec cs il r1 hI
    obtain ⟨hFc, hFshape, hFrep⟩ := pFrac_spec r1 fl r2 hF
    obtain ⟨hEc, hEshape, hErep⟩ := pExp_spec r2 el r3 hE
    have hdata : lex.data = il ++ fl ++ el := by rw [← hlex]
    refine ⟨?_, ?_, ?_⟩
    · rw [hdata, hIc, hFc, hEc]
      simp [List.append_assoc]
    · rw [hdata, hil]
      exact ⟨hc, hcs2 ++ fl ++ el, by simp [List.append_assoc], hchead⟩
    · intro X hbd
      have hbdf := bdOk_facts X hbd
      have hXe : ∀ c, (el ++ X).head? = some c →
          c.isDigit = false ∧ ¬ c = '.' := by
        refine head_cond_append el X ?_ ?_
        · intro c hcx
          rcases hEshape with rfl | ⟨e', t', rfl, he'⟩
          · simp at hcx
          · simp only [List.head?_cons, Option.some.injEq] at hcx
            subst hcx
            rcases he' with rfl | rfl
            · exact ⟨by decide, by decide⟩
            · exact ⟨by decide, by decide⟩
        · intro c hcx
          exact ⟨(hbdf c hcx).1, (hbdf c hcx).2.1⟩
      have hXf : ∀ c, (fl ++ (el ++ X)).head? = some c → c.isDigit = false := by
        refine head_cond_append fl (el ++ X) ?_ ?_
        · intro c hcx
          rcases hFshape with rfl | ⟨d, t, rfl⟩
          · simp at hcx
          · simp only [List.head?_cons, Option.some.injEq] at hcx
            subst hcx
            decide
        · intro c hcx
          exact (hXe c hcx).1
      have hXee : ∀ c, X.head? = some c →
          c.isDigit = false ∧ ¬ (c = 'e' ∨ c = 'E') := by
        intro c hcx
        exact ⟨(hbdf c hcx).1, (hbdf c hcx).2.2⟩
      rw [hdata, pNumber]
      have h1 := hIrep (fl ++ (el ++ X)) hXf
      rw [show il ++ fl ++ el ++ X = il ++ (fl ++ (el ++ X)) by
            simp [List.append_assoc], h1]
      simp only [Except.bind]
      rw [hFrep (el ++ X) (fun c hcx => hXe c hcx), hErep X hXee]
      rw [← hlex]

theorem skipWs_not (c : Char) (t : List Char) (h : jIsWs c = false) :
    skipWs (c :: t) = c :: t := by
  rw [skipWs, h]
  simp

theorem pValue_step (f : Nat) (cs : List Char) : pValue (f + 1) cs =
    (match skipWs cs with
     | [] => .error "Expecting value"
     | c :: rest =>
       if c = '{' then
         match skipWs rest with
         | '\x7d' :: r => .ok (.obj [], r)
         | r => match pObjLoop f r with
                | .ok (kvs, rest') => .ok (.obj kvs, rest')
                | .error e => .error e
       else if c = '[' then
         match skipWs rest with
         | ']' :: r => .ok (.arr [], r)
         | r => match pArrLoop f r with
                | .ok (xs, rest') => .ok (.arr xs, rest')
                | .error e => .error e
       else if c = '"' then
         match pStringChars rest with
         | .ok (s, r) => .ok (.str ⟨s⟩, r)
         | .error e => .error e
       else if c = 't' then
         match rest with
         | 'r' :: 'u' :: 'e' :: r => .ok (.bool true, r)
         | _ => .error "Expecting value"
       else if c = 'f' then
         match rest with
         | 'a' :: 'l' :: 's' :: 'e' :: r => .ok (.bool false, r)
         | _ => .error "Expecting value"
       else if c = 'n' then
         match rest with
         | 'u' :: 'l' :: 'l' :: r => .ok (.null, r)
         | _ => .error "Expecting value"
       else if c = '-' ∨ c.isDigit then
         match pNumber (c :: rest) with
         | .ok (lex, r) => .ok (.num lex, r)
         | .error e => .error e
       else .error "Expecting value") := rfl

theorem pValue_cons_step (f : Nat) (c : Char) (rest : List Char)
    (hws : jIsWs c = false) : pValue (f + 1) (c :: rest) =
    (if c = '{' then
       match skipWs rest with
       | '\x7d' :: r => .ok (.obj [], r)
       | r => match pObjLoop f r with
              | .ok (kvs, rest') => .ok (.obj kvs, rest')
              | .error e => .error e
     else if c = '[' then
       match skipWs rest with
       | ']' :: r => .ok (.arr [], r)
       | r => match pArrLoop f r with
              | .ok (xs, rest') => .ok (.arr xs, rest')
              | .error e => .error e
     else if c = '"' then
       match pStringChars rest with
       | .ok (s, r) => .ok (.str ⟨s⟩, r)
       | .error e => .error e
     else if c = 't' then
       match rest with
       | 'r' :: 'u' :: 'e' :: r => .ok (.bool true, r)
       | _ => .error "Expecting value"
     else if c = 'f' then
       match rest with
       | 'a' :: 'l' :: 's' :: 'e' :: r => .ok (.bool false, r)
       | _ => .error "Expecting value"
     else if c = 'n' then
       match rest with
       | 'u' :: 'l' :: 'l' :: r => .ok (.null, r)
       | _ => .error "Expecting value"
     else if c = '-' ∨ c.isDigit then
       match pNumber (c :: rest) with
       | .ok (lex, r) => .ok (.num lex, r)
       | .error e => .error e
     else .error "Expecting value") := by
  rw [pValue_step, skipWs_not c rest hws]

theorem GoodV_null : GoodV .null := by
  refine ⟨?_, ?_, 'n', ['u', 'l', 'l'], by simp [dumpChars], by decide, by decide⟩
  · intro X g hbd hg
    rw [show sizeJ JVal.null = 1 by simp [sizeJ]] at hg
    obtain ⟨g', rfl⟩ : ∃ g', g = g' + 1 := ⟨g - 1, by omega⟩
    rw [show dumpChars JVal.null = ['n', 'u', 'l', 'l'] by simp [dumpChars]]
    rfl
  · simp [sizeJ, dumpChars]

theorem GoodV_bool (b : Bool) : GoodV (.bool b) := by
  refine ⟨?_, ?_, ?_⟩
  case refine_3 =>
    cases b
    · exact ⟨'f', ['a', 'l', 's', 'e'], by simp [dumpChars], by decide, by decide⟩
    · exact ⟨'t', ['r', 'u', 'e'], by simp [dumpChars], by decide, by decide⟩
  · intro X g hbd hg
    rw [show sizeJ (JVal.bool b) = 1 by simp [sizeJ]] at hg
    obtain ⟨g', rfl⟩ : ∃ g', g = g' + 1 := ⟨g - 1, by omega⟩
    cases b
    · rw [show dumpChars (JVal.bool false) = ['f', 'a', 'l', 's', 'e'] by
        simp [dumpChars]]
      rfl
    · rw [show dumpChars (JVal.bool true) = ['t', 'r', 'u', 'e'] by
        simp [dumpChars]]
      rfl
  · cases b <;> simp [sizeJ, dumpChars]

theorem numStart_facts (c : Char) (h : c = '-' ∨ c.isDigit = true) :
    jIsWs c = false ∧ ¬c = '{' ∧ ¬c = '[' ∧ ¬c = '"' ∧ ¬c = 't' ∧ ¬c = 'f'
    ∧ ¬c = 'n' := by
  rcases h with rfl | hd
  · exact ⟨by decide, by decide, by decide, by decide, by decide, by decide,
          by decide⟩
  · refine ⟨?_, ?_, ?_, ?_, ?_, ?_, ?_⟩
    · have h1 : ¬c = ' ' := fun hh => absurd (hh ▸ hd) (by decide)
      have h2 : ¬c = '\t' := fun hh => absurd (hh ▸ hd) (by decide)
      have h3 : ¬c = '\n' := fun hh => absurd (hh ▸ hd) (by decide)
      have h4 : ¬c = '\r' := fun hh => absurd (hh ▸ hd) (by decide)
      simp [jIsWs, h1, h2, h3, h4]
    · exact fun hh => absurd (hh ▸ hd) (by decide)
    · exact fun hh => absurd (hh ▸ hd) (by decide)
    · exact fun hh => absurd (hh ▸ hd) (by decide)
    · exact fun hh => absurd (hh ▸ hd) (by decide)
    · exact fun hh => absurd (hh ▸ hd) (by decide)
    · exact fun hh => absurd (hh ▸ hd) (by decide)

theorem GoodV_num (cs : List Char) (lex : String) (r : List Char)
    (h : pNumber cs = .ok (lex, r)) : GoodV (.num lex) := by
  obtain ⟨-, ⟨c, cs', hdat, hhead⟩, hrep⟩ := pNumber_spec cs lex r h
  have hdump : dumpChars (.num lex) = lex.data := by simp [dumpChars]
  refine ⟨?_, ?_, ?_⟩
  case refine_3 =>
    refine ⟨c, cs', by rw [hdump, hdat], (numStart_facts c hhead).1, ?_⟩
    rcases hhead with rfl | hd
    · decide
    · exact fun hh => absurd (hh ▸ hd) (by decide)
  · intro X g hbd hg
    rw [show sizeJ (JVal.num lex) = 1 by simp [sizeJ]] at hg
    obtain ⟨g', rfl⟩ : ∃ g', g = g' + 1 := ⟨g - 1, by omega⟩
    obtain ⟨hws, h1, h2, h3, h4, h5, h6⟩ := numStart_facts c hhead
    rw [hdump, hdat]
    simp only [List.cons_append]
    rw [pValue_cons_step _ _ _ hws, if_neg h1, if_neg h2, if_neg h3,
        if_neg h4, if_neg h5, if_neg h6, if_pos (by simpa using hhead)]
    have := hrep X hbd
    rw [hdat] at this
    simp only [List.cons_append] at this
    rw [this]
  · rw [show sizeJ (JVal.num lex) = 1 by simp [sizeJ], hdump, hdat]
    simp

theorem escStr_length (s : List Char) : s.length ≤ (escStr s).length := by
  induction s with
  | nil => simp [escStr]
  | cons c cs ih =>
    rw [show escStr (c :: cs) = escChar c ++ escStr cs from rfl]
    have : 1 ≤ (escChar c).length := by
      rw [escChar]
      split
      · simp
      · split
        · simp
        · split <;> simp
    simp only [List.length_append, List.length_cons]
    omega

theorem quote_facts :
    jIsWs '"' = false ∧ ¬('"' : Char) = '{' ∧ ¬('"' : Char) = '[' := by
  exact ⟨by decide, by decide, by decide⟩

theorem GoodV_str (s : String) : GoodV (.str s) := by
  have hdump : dumpChars (.str s) = '"' :: escStr s.data ++ ['"'] := by
    simp [dumpChars]
  refine ⟨?_, ?_, '"', escStr s.data ++ ['"'], hdump, by decide, by decide⟩
  · intro X g hbd hg
    rw [show sizeJ (JVal.str s) = 1 by simp [sizeJ]] at hg
    obtain ⟨g', rfl⟩ : ∃ g', g = g' + 1 := ⟨g - 1, by omega⟩
    rw [hdump]
    simp only [List.cons_append, List.append_assoc, List.cons_append,
               List.nil_append]
    rw [pValue_cons_step _ _ _ (by decide), if_neg (by decide),
        if_neg (by decide), if_pos rfl]
    have hrt : pStringChars (escStr s.data ++ '"' :: X) = .ok (s.data, X) := by
      rw [pStringChars]
      apply pStrF_escStr
      have := escStr_length s.data
      simp only [List.length_append, List.length_cons]
      omega
    rw [hrt]
  · rw [show sizeJ (JVal.str s) = 1 by simp [sizeJ], hdump]
    simp

theorem dictLookup_none_iff (k : String) (kvs : List (String × JVal)) :
    dictLookup k kvs = Option.none ↔ k ∉ kvs.map Prod.fst := by
  induction kvs with
  | nil => simp [dictLookup]
  | cons kv rest ih =>
    obtain ⟨k', v⟩ := kv
    by_cases hk : k' = k
    · subst hk
      simp [dictLookup]
    · rw [dictLookup, if_neg hk]
      simp only [List.map_cons, List.mem_cons]
      constructor
      · intro hh
        rintro (rfl | hmem)
        · exact hk rfl
        · exact (ih.mp hh) hmem
      · intro hh
        exact ih.mpr (fun hm => hh (Or.inr hm))

theorem dictCombine_of_nodup (k : String) (v : JVal)
    (kvs : List (String × JVal)) (h : keysNodup ((k, v) :: kvs)) :
    dictCombine k v kvs = (k, v) :: kvs := by
  have hk : k ∉ kvs.map Prod.fst := by
    have := h
    rw [keysNodup] at this
    simp only [List.map_cons] at this
    exact (List.nodup_cons.mp this).1
  rw [dictCombine, (dictLookup_none_iff k kvs).mpr hk]

theorem dictLookup_value_mem (k : String) (kvs : List (String × JVal)) (w : JVal)
    (h : dictLookup k kvs = some w) : ∃ kv ∈ kvs, kv.2 = w := by
  induction kvs with
  | nil => simp [dictLookup] at h
  | cons kv rest ih =>
    obtain ⟨k', v⟩ := kv
    by_cases hk : k' = k
    · subst hk
      rw [dictLookup, if_pos rfl] at h
      cases h
      exact ⟨(k', w), by simp, rfl⟩
    · rw [dictLookup, if_neg hk] at h
      obtain ⟨kv0, hmem, hval⟩ := ih h
      exact ⟨kv0, by simp [hmem], hval⟩

theorem keysNodup_dictCombine (k : String) (v : JVal)
    (kvs : List (String × JVal)) (h : keysNodup kvs) :
    keysNodup (dictCombine k v kvs) := by
  rw [dictCombine]
  cases hl : dictLookup k kvs with
  | none =>
    rw [keysNodup, List.map_cons, List.nodup_cons]
    exact ⟨(dictLookup_none_iff k kvs).mp hl, h⟩
  | some w =>
    rw [keysNodup, List.map_cons, List.nodup_cons]
    constructor
    · intro hmem
      obtain ⟨kv0, hkv0, hfst⟩ := List.mem_map.mp hmem
      have := List.mem_filter.mp hkv0
      rw [hfst] at this
      simp at this
    · have hsub : List.Sublist ((kvs.filter (fun kv => !(kv.1 == k))).map Prod.fst)
          (kvs.map Prod.fst) := (List.filter_sublist _).map _
      exact h.sublist hsub

theorem dictCombine_values (k : String) (v : JVal) (kvs : List (String × JVal)) :
    ∀ kv' ∈ dictCombine k v kvs, kv'.2 = v ∨ ∃ kv ∈ kvs, kv'.2 = kv.2 := by
  intro kv' hmem
  rw [dictCombine] at hmem
  cases hl : dictLookup k kvs with
  | none =>
    rw [hl] at hmem
    rcases List.mem_cons.mp hmem with rfl | hm
    · exact Or.inl rfl
    · exact Or.inr ⟨kv', hm, rfl⟩
  | some w =>
    rw [hl] at hmem
    rcases List.mem_cons.mp hmem with rfl | hm
    · obtain ⟨kv0, hkv0, hval⟩ := dictLookup_value_mem k kvs w hl
      exact Or.inr ⟨kv0, hkv0, hval.symm⟩
    · exact Or.inr ⟨kv', List.mem_of_mem_filter hm, rfl⟩

theorem String_eta (s : String) : String.mk s.data = s := rfl

theorem pObjLoop_step (f : Nat) (cs : List Char) :
    pObjLoop (f + 1) cs =
    (match skipWs cs with
     | '"' :: r =>
       match pStringChars r with
       | .error e => .error e
       | .ok (k, r1) =>
         match skipWs r1 with
         | ':' :: r2 =>
           match pValue f r2 with
           | .error e => .error e
           | .ok (v, r3) =>
             match skipWs r3 with
             | ',' :: r4 =>
               match pObjLoop f r4 with
               | .ok (kvs, rest) => .ok (dictCombine ⟨k⟩ v kvs, rest)
               | .error e => .error e
             | '\x7d' :: r4 => .ok ([(⟨k⟩, v)], r4)
             | _ => .error "Expecting delimiter"
         | _ => .error "Expecting colon"
     | _ => .error "Expecting property name") := rfl

theorem pObjLoop_quote_step (f : Nat) (T : List Char) :
    pObjLoop (f + 1) ('"' :: T) =
    (match pStringChars T with
     | .error e => .error e
     | .ok (k, r1) =>
       match skipWs r1 with
       | ':' :: r2 =>
         match pValue f r2 with
         | .error e => .error e
         | .ok (v, r3) =>
           match skipWs r3 with
           | ',' :: r4 =>
             match pObjLoop f r4 with
             | .ok (kvs, rest) => .ok (dictCombine ⟨k⟩ v kvs, rest)
             | .error e => .error e
           | '\x7d' :: r4 => .ok ([(⟨k⟩, v)], r4)
           | _ => .error "Expecting delimiter"
       | _ => .error "Expecting colon") := rfl

theorem pArrLoop_step (f : Nat) (cs : List Char) :
    pArrLoop (f + 1) cs =
    (match pValue f cs with
     | .error e => .error e
     | .ok (x, r1) =>
       match skipWs r1 with
       | ',' :: r2 =>
         match pArrLoop f r2 with
         | .ok (xs, rest) => .ok (x :: xs, rest)
         | .error e => .error e
       | ']' :: r2 => .ok ([x], r2)
       | _ => .error "Expecting delimiter") := rfl

theorem pStringChars_escStr (s : List Char) (rest : List Char) :
    pStringChars (escStr s ++ '"' :: rest) = .ok (s, rest) := by
  rw [pStringChars]
  apply pStrF_escStr
  have := escStr_length s
  simp only [List.length_append, List.length_cons]
  omega

theorem dumpObjInner_single (k : String) (v : JVal) :
    dumpObjInner [(k, v)] =
      '"' :: (escStr k.data ++ '"' :: ':' :: dumpChars v) := by
  simp [dumpObjInner]

theorem dumpObjInner_cons2 (k : String) (v : JVal) (kv2 : String × JVal)
    (kvs : List (String × JVal)) :
    dumpObjInner ((k, v) :: kv2 :: kvs) =
      '"' :: (escStr k.data ++ '"' :: ':' ::
        (dumpChars v ++ ',' :: dumpObjInner (kv2 :: kvs))) := by
  simp [dumpObjInner]

theorem dumpArrInner_single (x : JVal) : dumpArrInner [x] = dumpChars x := by
  simp [dumpArrInner]

theorem dumpArrInner_cons2 (x y : JVal) (xs : List JVal) :
    dumpArrInner (x :: y :: xs) =
      dumpChars x ++ ',' :: dumpArrInner (y :: xs) := by
  simp [dumpArrInner]

theorem sizeJ_pos (v : JVal) : 1 ≤ sizeJ v := by
  cases v <;> simp [sizeJ]

theorem sizeO_le_dump (kvs : List (String × JVal))
    (h : ∀ kv ∈ kvs, sizeJ kv.2 ≤ (dumpChars kv.2).length) :
    sizeO kvs ≤ (dumpObjInner kvs).length + 1 := by
  induction kvs with
  | nil => simp [sizeO, dumpObjInner]
  | cons kv rest ih =>
    obtain ⟨k, v⟩ := kv
    have hv := h (k, v) (by simp)
    have hvp := sizeJ_pos v
    cases rest with
    | nil =>
      rw [dumpObjInner_single]
      simp only [List.length_cons, List.length_append] at hv ⊢
      simp only [sizeO]
      omega
    | cons kv2 rest2 =>
      have ih' := ih (fun kv hm => h kv (by simp [hm]))
      rw [dumpObjInner_cons2]
      simp only [List.length_cons, List.length_append] at hv ih' ⊢
      simp only [sizeO] at ih' ⊢
      omega

theorem sizeL_le_dump (xs : List JVal)
    (h : ∀ x ∈ xs, sizeJ x ≤ (dumpChars x).length) :
    sizeL xs ≤ (dumpArrInner xs).length + 1 := by
  induction xs with
  | nil => simp [sizeL, dumpArrInner]
  | cons x rest ih =>
    have hx := h x (by simp)
    have hxp := sizeJ_pos x
    cases rest with
    | nil =>
      rw [dumpArrInner_single]
      simp only [sizeL]
      omega
    | cons y rest2 =>
      have ih' := ih (fun z hm => h z (by simp [hm]))
      rw [dumpArrInner_cons2]
      simp only [List.length_cons, List.length_append] at hx ih' ⊢
      simp only [sizeL] at ih' ⊢
      omega

theorem bdOk_cons (c : Char) (h : c = ',' ∨ c = '\x7d' ∨ c = ']')
    (X : List Char) : bdOk (c :: X) := by
  intro c' hc'
  simp only [List.head?_cons, Option.some.injEq] at hc'
  exact hc' ▸ h

theorem pObjLoop_str_step (f : Nat) (T k rk : List Char)
    (h1 : pStringChars T = .ok (k, ':' :: rk)) :
    pObjLoop (f + 1) ('"' :: T) =
    (match pValue f rk with
     | .error e => .error e
     | .ok (v, r3) =>
       match skipWs r3 with
       | ',' :: r4 =>
         match pObjLoop f r4 with
         | .ok (kvs, rest) => .ok (dictCombine ⟨k⟩ v kvs, rest)
         | .error e => .error e
       | '\x7d' :: r4 => .ok ([(⟨k⟩, v)], r4)
       | _ => .error "Expecting delimiter") := by
  rw [pObjLoop_quote_step, h1]
  rfl

theorem pObjLoop_comma_step (f : Nat) (T k rk : List Char) (v : JVal)
    (rv : List Char) (h1 : pStringChars T = .ok (k, ':' :: rk))
    (h2 : pValue f rk = .ok (v, ',' :: rv)) :
    pObjLoop (f + 1) ('"' :: T) =
    (match pObjLoop f rv with
     | .ok (kvs, rest) => .ok (dictCombine ⟨k⟩ v kvs, rest)
     | .error e => .error e) := by
  rw [pObjLoop_str_step f T k rk h1, h2]
  rfl

theorem pObjLoop_comma_done (f : Nat) (T k rk : List Char) (v : JVal)
    (rv : List Char) (kvs : List (String × JVal)) (rest : List Char)
    (h1 : pStringChars T = .ok (k, ':' :: rk))
    (h2 : pValue f rk = .ok (v, ',' :: rv))
    (h3 : pObjLoop f rv = .ok (kvs, rest)) :
    pObjLoop (f + 1) ('"' :: T) = .ok (dictCombine ⟨k⟩ v kvs, rest) := by
  rw [pObjLoop_comma_step f T k rk v rv h1 h2, h3]

theorem pObjLoop_close_done (f : Nat) (T k rk : List Char) (v : JVal)
    (rv : List Char) (h1 : pStringChars T = .ok (k, ':' :: rk))
    (h2 : pValue f rk = .ok (v, '\x7d' :: rv)) :
    pObjLoop (f + 1) ('"' :: T) = .ok ([(⟨k⟩, v)], rv) := by
  rw [pObjLoop_str_step f T k rk h1, h2]
  rfl

theorem pArrLoop_comma_step (f : Nat) (cs : List Char) (x : JVal)
    (T : List Char) (h : pValue f cs = .ok (x, ',' :: T)) :
    pArrLoop (f + 1) cs =
    (match pArrLoop f T with
     | .ok (xs, rest) => .ok (x :: xs, rest)
     | .error e => .error e) := by
  rw [pArrLoop_step, h]
  rfl

theorem pArrLoop_comma_done (f : Nat) (cs : List Char) (x : JVal)
    (T : List Char) (xs : List JVal) (rest : List Char)
    (h : pValue f cs = .ok (x, ',' :: T))
    (h3 : pArrLoop f T = .ok (xs, rest)) :
    pArrLoop (f + 1) cs = .ok (x :: xs, rest) := by
  rw [pArrLoop_comma_step f cs x T h, h3]

theorem pArrLoop_close_done (f : Nat) (cs : List Char) (x : JVal)
    (X : List Char) (h : pValue f cs = .ok (x, ']' :: X)) :
    pArrLoop (f + 1) cs = .ok ([x], X) := by
  rw [pArrLoop_step, h]
  rfl

theorem objLoop_replay (kvs : List (String × JVal)) : kvs ≠ [] →
    keysNodup kvs → (∀ kv ∈ kvs, GoodV kv.2) →
    ∀ X g, bdOk X → sizeO kvs ≤ g →
      pObjLoop g (dumpObjInner kvs ++ '\x7d' :: X) = .ok (kvs, X) := by
  induction kvs with
  | nil => intro h; exact absurd rfl h
  | cons kv rest ih =>
    intro _ hnd hgood X g hbd hsz
    obtain ⟨k, v⟩ := kv
    have hgv : GoodV v := hgood (k, v) (by simp)
    simp only [sizeO] at hsz
    obtain ⟨g', rfl⟩ : ∃ g', g = g' + 1 := ⟨g - 1, by omega⟩
    cases rest with
    | nil =>
      rw [dumpObjInner_single]
      simp only [List.cons_append, List.append_assoc]
      have h1 := pStringChars_escStr k.data (':' :: (dumpChars v ++ '\x7d' :: X))
      have h2 : pValue g' (dumpChars v ++ '\x7d' :: X) = .ok (v, '\x7d' :: X) :=
        hgv.1 ('\x7d' :: X) g' (bdOk_cons _ (by decide) X) (by omega)
      rw [pObjLoop_close_done g' _ _ _ _ _ h1 h2]
    | cons kv2 rest2 =>
      have hndc := hnd
      have hnd' : keysNodup (kv2 :: rest2) := by
        rw [keysNodup, List.map_cons, List.nodup_cons] at hnd
        exact hnd.2
      rw [dumpObjInner_cons2]
      simp only [List.cons_append, List.append_assoc]
      have h1 := pStringChars_escStr k.data
        (':' :: (dumpChars v ++ ',' :: (dumpObjInner (kv2 :: rest2) ++ '\x7d' :: X)))
      have h2 : pValue g' (dumpChars v ++ ',' :: (dumpObjInner (kv2 :: rest2) ++ '\x7d' :: X))
          = .ok (v, ',' :: (dumpObjInner (kv2 :: rest2) ++ '\x7d' :: X)) :=
        hgv.1 _ g' (bdOk_cons _ (by decide) _) (by omega)
      have hrec : pObjLoop g' (dumpObjInner (kv2 :: rest2) ++ '\x7d' :: X)
          = .ok (kv2 :: rest2, X) :=
        ih (by simp) hnd' (fun z hm => hgood z (by simp [hm])) X g' hbd (by omega)
      rw [pObjLoop_comma_done g' _ _ _ _ _ _ _ h1 h2 hrec]
      rw [show (⟨k.data⟩ : String) = k from rfl, dictCombine_of_nodup k v _ hndc]

theorem arrLoop_replay (xs : List JVal) : xs ≠ [] →
    (∀ x ∈ xs, GoodV x) →
    ∀ X g, bdOk X → sizeL xs ≤ g →
      pArrLoop g (dumpArrInner xs ++ ']' :: X) = .ok (xs, X) := by
  induction xs with
  | nil => intro h; exact absurd rfl h
  | cons x rest ih =>
    intro _ hgood X g hbd hsz
    have hgx : GoodV x := hgood x (by simp)
    simp only [sizeL] at hsz
    obtain ⟨g', rfl⟩ : ∃ g', g = g' + 1 := ⟨g - 1, by omega⟩
    cases rest with
    | nil =>
      rw [dumpArrInner_single]
      have h2 : pValue g' (dumpChars x ++ ']' :: X) = .ok (x, ']' :: X) :=
        hgx.1 (']' :: X) g' (bdOk_cons _ (by decide) X) (by omega)
      rw [pArrLoop_close_done g' _ _ _ h2]
    | cons y rest2 =>
      rw [dumpArrInner_cons2]
      simp only [List.cons_append, List.append_assoc]
      have h2 : pValue g' (dumpChars x ++ ',' :: (dumpArrInner (y :: rest2) ++ ']' :: X))
          = .ok (x, ',' :: (dumpArrInner (y :: rest2) ++ ']' :: X)) :=
        hgx.1 _ g' (bdOk_cons _ (by decide) _) (by omega)
      have hrec : pArrLoop g' (dumpArrInner (y :: rest2) ++ ']' :: X)
          = .ok (y :: rest2, X) :=
        ih (by simp) (fun z hm => hgood z (by simp [hm])) X g' hbd (by omega)
      rw [pArrLoop_comma_done g' _ _ _ _ _ h2 hrec]

theorem pValue_obj_quote_step (f : Nat) (T : List Char) :
    pValue (f + 1) ('{' :: '"' :: T) =
    (match pObjLoop f ('"' :: T) with
     | .ok (kvs, rest') => .ok (.obj kvs, rest')
     | .error e => .error e) := rfl

theorem pValue_arr_cons_step (f : Nat) (c : Char) (T : List Char)
    (hws : jIsWs c = false) (hne : ¬c = ']') :
    pValue (f + 1) ('[' :: c :: T) =
    (match pArrLoop f (c :: T) with
     | .ok (xs, rest') => .ok (.arr xs, rest')
     | .error e => .error e) := by
  rw [pValue_cons_step _ _ _ (by decide), if_neg (by decide), if_pos rfl,
      skipWs_not c T hws]
  split
  · next r heq =>
    cases heq
    exact absurd rfl hne
  · rfl

theorem sizeO_pos (kvs : List (String × JVal)) : 1 ≤ sizeO kvs := by
  cases kvs with
  | nil => simp [sizeO]
  | cons kv r =>
    obtain ⟨k, v⟩ := kv
    simp only [sizeO]
    omega

theorem sizeL_pos (xs : List JVal) : 1 ≤ sizeL xs := by
  cases xs with
  | nil => simp [sizeL]
  | cons x r =>
    simp only [sizeL]
    omega

theorem dumpObjInner_cons_quote (kv : String × JVal)
    (kvs : List (String × JVal)) :
    ∃ t, dumpObjInner (kv :: kvs) = '"' :: t := by
  obtain ⟨k, v⟩ := kv
  cases kvs with
  | nil => exact ⟨_, dumpObjInner_single k v⟩
  | cons kv2 rest => exact ⟨_, dumpObjInner_cons2 k v kv2 rest⟩

theorem GoodV_obj (kvs : List (String × JVal)) (hnd : keysNodup kvs)
    (hg : ∀ kv ∈ kvs, GoodV kv.2) : GoodV (.obj kvs) := by
  have hdump : dumpChars (.obj kvs) = '{' :: dumpObjInner kvs ++ ['\x7d'] := by
    simp [dumpChars]
  have hsize : sizeJ (.obj kvs) = sizeO kvs + 1 := by simp [sizeJ]
  refine ⟨?_, ?_, ?_⟩
  case refine_3 => exact ⟨'{', _, hdump, by decide, by decide⟩
  case refine_2 =>
    rw [hsize, hdump]
    have hb := sizeO_le_dump kvs (fun kv hm => (hg kv hm).2.1)
    simp only [List.length_cons, List.length_append]
    omega
  · intro X g hbd hgf
    rw [hsize] at hgf
    have hOp := sizeO_pos kvs
    obtain ⟨g', rfl⟩ : ∃ g', g = g' + 1 := ⟨g - 1, by omega⟩
    rw [hdump]
    simp only [List.cons_append, List.append_assoc, List.nil_append]
    cases kvs with
    | nil =>
      rw [show dumpObjInner [] = ([] : List Char) by simp [dumpObjInner]]
      simp only [List.nil_append]
      rw [pValue_cons_step _ _ _ (by decide), if_pos rfl]
      rfl
    | cons kv rest =>
      obtain ⟨t, ht⟩ := dumpObjInner_cons_quote kv rest
      have hrep := objLoop_replay (kv :: rest) (by simp) hnd hg X g' hbd
        (by omega)
      rw [ht] at hrep ⊢
      simp only [List.cons_append] at hrep ⊢
      rw [pValue_obj_quote_step, hrep]

theorem GoodV_arr (xs : List JVal) (hg : ∀ x ∈ xs, GoodV x) :
    GoodV (.arr xs) := by
  have hdump : dumpChars (.arr xs) = '[' :: dumpArrInner xs ++ [']'] := by
    simp [dumpChars]
  have hsize : sizeJ (.arr xs) = sizeL xs + 1 := by simp [sizeJ]
  refine ⟨?_, ?_, ?_⟩
  case refine_3 => exact ⟨'[', _, hdump, by decide, by decide⟩
  case refine_2 =>
    rw [hsize, hdump]
    have hb := sizeL_le_dump xs (fun x hm => (hg x hm).2.1)
    simp only [List.length_cons, List.length_append]
    omega
  · intro X g hbd hgf
    rw [hsize] at hgf
    have hLp := sizeL_pos xs
    obtain ⟨g', rfl⟩ : ∃ g', g = g' + 1 := ⟨g - 1, by omega⟩
    rw [hdump]
    simp only [List.cons_append, List.append_assoc, List.nil_append]
    cases xs with
    | nil =>
      rw [show dumpArrInner [] = ([] : List Char) by simp [dumpArrInner]]
      simp only [List.nil_append]
      rw [pValue_cons_step _ _ _ (by decide), if_neg (by decide), if_pos rfl]
      rfl
    | cons x rest =>
      obtain ⟨c, t, hct, hcws, hcne⟩ := (hg x (by simp)).2.2
      have hrep := arrLoop_replay (x :: rest) (by simp) hg X g' hbd (by omega)
      have hinner : ∃ t2, dumpArrInner (x :: rest) = c :: t2 := by
        cases rest with
        | nil => exact ⟨t, by rw [dumpArrInner_single, hct]⟩
        | cons y r2 =>
          exact ⟨t ++ ',' :: dumpArrInner (y :: r2), by
            rw [dumpArrInner_cons2, hct]; simp⟩
      obtain ⟨t2, ht2⟩ := hinner
      rw [ht2] at hrep ⊢
      simp only [List.cons_append] at hrep ⊢
      rw [pValue_arr_cons_step g' c _ hcws hcne, hrep]

theorem masterRT (f : Nat) :
    (∀ cs v r, pValue f cs = .ok (v, r) → GoodV v)
  ∧ (∀ cs kvs r, pObjLoop f cs = .ok (kvs, r) →
      keysNodup kvs ∧ ∀ kv ∈ kvs, GoodV kv.2)
  ∧ (∀ cs xs r, pArrLoop f cs = .ok (xs, r) → ∀ x ∈ xs, GoodV x) := by
  induction f with
  | zero =>
    refine ⟨?_, ?_, ?_⟩
    · intro cs v r h
      rw [show pValue 0 cs = .error "Recursion limit" from rfl] at h
      cases h
    · intro cs kvs r h
      rw [show pObjLoop 0 cs = .error "Recursion limit" from rfl] at h
      cases h
    · intro cs xs r h
      rw [show pArrLoop 0 cs = .error "Recursion limit" from rfl] at h
      cases h
  | succ f ih =>
    obtain ⟨ihV, ihO, ihA⟩ := ih
    refine ⟨?_, ?_, ?_⟩
    · intro cs v r h
      rw [pValue_step] at h
      split at h
      · cases h
      · split at h
        · -- object branch
          split at h
          · cases h
            exact GoodV_obj [] (by simp [keysNodup]) (by simp)
          · split at h
            · rename_i kvs rest' heq
              cases h
              obtain ⟨hnd, hgv⟩ := ihO _ _ _ heq
              exact GoodV_obj kvs hnd hgv
            · cases h
        · split at h
          · -- array branch
            split at h
            · cases h
              exact GoodV_arr [] (by simp)
            · split at h
              · rename_i xs rest' heq
                cases h
                exact GoodV_arr xs (ihA _ _ _ heq)
              · cases h
          · split at h
            · -- string branch
              split at h
              · rename_i s r' heq
                cases h
                exact GoodV_str ⟨s⟩
              · cases h
            · split at h
              · -- true branch
                split at h
                · cases h
                  exact GoodV_bool true
                · cases h
              · split at h
                · -- false branch
                  split at h
                  · cases h
                    exact GoodV_bool false
                  · cases h
                · split at h
                  · -- null branch
                    split at h
                    · cases h
                      exact GoodV_null
                    · cases h
                  · split at h
                    · -- number branch
                      split at h
                      · rename_i lex r' heq
                        cases h
                        exact GoodV_num _ _ _ heq
                      · cases h
                    · cases h
    · intro cs kvs r h
      rw [pObjLoop_step] at h
      split at h
      · split at h
        · cases h
        · rename_i k r1 heqS
          split at h
          · rename_i r2 heqC
            split at h
            · cases h
            · rename_i v0 r3 heqV
              split at h
              · rename_i r4 heqD
                split at h
                · rename_i kvs0 rest0 heqO
                  cases h
                  have hv0 : GoodV v0 := ihV _ _ _ heqV
                  obtain ⟨hnd0, hg0⟩ := ihO _ _ _ heqO
                  refine ⟨keysNodup_dictCombine _ _ _ hnd0, ?_⟩
                  intro kv hm
                  rcases dictCombine_values _ _ _ kv hm with hv | ⟨kv0, hm0, hval⟩
                  · rw [hv]
                    exact hv0
                  · rw [hval]
                    exact hg0 kv0 hm0
                · cases h
              · cases h
                refine ⟨by simp [keysNodup], ?_⟩
                intro kv hm
                rcases List.mem_singleton.mp hm with rfl
                exact ihV _ _ _ heqV
              · cases h
          · cases h
      · cases h
    · intro cs xs r h
      rw [pArrLoop_step] at h
      split at h
      · cases h
      · rename_i x r1 heqV
        split at h
        · rename_i r2 heqD
          split at h
          · rename_i xs0 rest0 heqA
            cases h
            intro z hm
            rcases List.mem_cons.mp hm with rfl | hm2
            · exact ihV _ _ _ heqV
            · exact ihA _ _ _ heqA z hm2
          · cases h
        · cases h
          intro z hm
          rcases List.mem_singleton.mp hm with rfl
          exact ihV _ _ _ heqV
        · cases h

theorem loads_dump (cs : List Char) (v : JVal)
    (h : jsonLoadsChars cs = .ok v) :
    jsonLoadsChars (dumpChars v) = .ok v := by
  rw [jsonLoadsChars] at h
  split at h
  · rename_i v0 rest heqV
    split at h
    · cases h
      have hgv : GoodV v := (masterRT _).1 _ _ _ heqV
      rw [jsonLoadsChars]
      have h1 : pValue ((dumpChars v).length + 1) (dumpChars v ++ []) =
          .ok (v, []) :=
        hgv.1 [] _ (by intro c hc; simp at hc) (by have := hgv.2.1; omega)
      simp only [List.append_nil] at h1
      rw [h1]
      rfl
    · cases h
  · cases h

theorem pyStripChars_id (c : Char) (L : List Char) (d : Char)
    (hc : pyIsSpace c = false) (hd : pyIsSpace d = false) :
    pyStripChars (c :: L ++ [d]) = c :: L ++ [d] := by
  have h1 : (c :: L ++ [d]).dropWhile pyIsSpace = c :: L ++ [d] := by
    simp [List.dropWhile_cons, hc]
  rw [pyStripChars, h1]
  have h2 : (c :: L ++ [d]).reverse = d :: (L.reverse ++ [c]) := by simp
  rw [h2]
  have h3 : (d :: (L.reverse ++ [c])).dropWhile pyIsSpace =
      d :: (L.reverse ++ [c]) := by
    simp [List.dropWhile_cons, hd]
  rw [h3, ← h2, List.reverse_reverse]

theorem coerce_dump_ok (v : JVal) (cs : List Char)
    (hload : jsonLoadsChars cs = .ok v) (hdict : isDict v = true) :
    coerce_json_object_text (some (jsonDumps v)) = (some v, Option.none) := by
  have hd := loads_dump cs v hload
  obtain ⟨kvs, rfl⟩ : ∃ kvs, v = .obj kvs := by
    cases v with
    | obj kvs => exact ⟨kvs, rfl⟩
    | null => simp [isDict] at hdict
    | bool b => simp [isDict] at hdict
    | num l => simp [isDict] at hdict
    | str s => simp [isDict] at hdict
    | arr xs => simp [isDict] at hdict
  have hdump : dumpChars (.obj kvs) = '{' :: dumpObjInner kvs ++ ['\x7d'] := by
    simp [dumpChars]
  have hs : pyStripChars (jsonDumps (JVal.obj kvs)).data =
      dumpChars (JVal.obj kvs) := by
    show pyStripChars (dumpChars (JVal.obj kvs)) = dumpChars (JVal.obj kvs)
    rw [hdump]
    exact pyStripChars_id '{' (dumpObjInner kvs) '\x7d' (by decide) (by decide)
  simp only [coerce_json_object_text]
  rw [hs]
  have hne : ¬((dumpChars (JVal.obj kvs)).isEmpty = true) := by
    rw [hdump]
    simp
  rw [if_neg hne, hd]
  rfl

/-- C9: coercion is idempotent across a serialize step: whenever
coercion succeeds on a text with object value and no error,
re-serializing that value to plain JSON text and coercing again
succeeds with the same object. -/
theorem coerce_idempotent (t : String) (v : JVal)
    (h : coerce_json_object_text (some t) = (some v, Option.none)) :
    coerce_json_object_text (some (jsonDumps v)) = (some v, Option.none) := by
  simp only [coerce_json_object_text] at h
  split at h
  · simp at h
  · split at h
    · rename_i obj heq
      split at h
      · rename_i hdict
        simp only [Prod.mk.injEq, Option.some.injEq] at h
        obtain ⟨rfl, -⟩ := h
        exact coerce_dump_ok _ _ heq hdict
      · simp at h
    · split at h
      · simp at h
      · rename_i extracted heqE
        split at h
        · rename_i obj heq2
          split at h
          · rename_i hdict
            simp only [Prod.mk.injEq, Option.some.injEq] at h
            obtain ⟨rfl, -⟩ := h
            exact coerce_dump_ok _ _ heq2 hdict
          · simp at h
        · simp at h

/-- Closed instance of the idempotence theorem at the concrete text
`'{"a":1}'`, discharging its hypothesis by computation. -/
theorem coerce_idempotent_witness :
    coerce_json_object_text (some "\x7b\"a\":1\x7d")
      = (some (.obj [("a", .num "1")]), Option.none)
  ∧ coerce_json_object_text (some (jsonDumps (.obj [("a", .num "1")])))
      = (some (.obj [("a", .num "1")]), Option.none) :=
  ⟨rfl, coerce_idempotent "\x7b\"a\":1\x7d" (.obj [("a", .num "1")]) rfl⟩
